import Mathlib

/-!
Shallow embedding of the go-pdf-builder PDF template service.

Conventions of the embedding:
* Go `float64` values that the program parses from templates are modelled as
  `Rat` (the program only adds, halves and compares them);
* Go `time.Time` is modelled as `Int` (a point on a discrete time line);
* Go maps are modelled as association lists; where Go's randomized iteration
  order could matter it is noted at the definition;
* the file system is a function from path to an optional `FileInfo`
  (modification time plus the CSV records of the file);
* Go strings are Lean `String`; the handful of `strings`-package functions the
  program uses are re-implemented below on `List Char`.
-/

namespace PdfGen

/-! ### Models of the Go `strings` package functions used by the program -/

/-- Prefix test on character lists (models `strings.HasPrefix` on `.data`). -/
def isPrefOf : List Char → List Char → Bool
  | [], _ => true
  | _ :: _, [] => false
  | a :: as, b :: bs => if a = b then isPrefOf as bs else false

/-- Substring test: some suffix of `s` starts with `pat`. -/
def hasSub (pat : List Char) : List Char → Bool
  | [] => isPrefOf pat []
  | c :: rest => isPrefOf pat (c :: rest) || hasSub pat rest

/-- Models Go `strings.ReplaceAll` (non-overlapping, left to right).  All call
sites in the program pass a non-empty pattern `\x7b\x7b…\x7d\x7d`; for the
(unused) empty pattern this model returns the string unchanged. -/
def replaceAllL (pat rep : List Char) (s : List Char) : List Char :=
  match s with
  | [] => []
  | c :: rest =>
    if pat ≠ [] ∧ isPrefOf pat (c :: rest) = true then
      rep ++ replaceAllL pat rep ((c :: rest).drop pat.length)
    else
      c :: replaceAllL pat rep rest
termination_by s.length
decreasing_by
  · rename_i h
    simp only [List.length_drop, List.length_cons]
    have : pat.length ≠ 0 := by
      intro hl
      exact h.1 (List.length_eq_zero.mp hl)
    omega
  · simp

def replaceAll (s pat rep : String) : String := ⟨replaceAllL pat.data rep.data s.data⟩

def containsSub (s pat : String) : Bool := hasSub pat.data s.data

def startsWithStr (s p : String) : Bool := isPrefOf p.data s.data

def endsWithStr (s p : String) : Bool := isPrefOf p.data.reverse s.data.reverse

/-- Models Go `strings.Trim`: drop characters of the cutset from both ends. -/
def trimL (cut : List Char) (s : List Char) : List Char :=
  ((s.dropWhile (cut.contains ·)).reverse.dropWhile (cut.contains ·)).reverse

def trimStr (s cutset : String) : String := ⟨trimL cutset.data s.data⟩

/-- Models Go `strings.TrimRight`. -/
def trimRightStr (s cutset : String) : String :=
  ⟨(s.data.reverse.dropWhile (cutset.data.contains ·)).reverse⟩

/-- Models Go `strings.TrimSpace` (restricted to ASCII whitespace). -/
def trimSpace (s : String) : String := ⟨trimL [' ', '\t', '\n', '\r'] s.data⟩

/-- Splitting on a single separator character (models `strings.Split` at the
call sites, which all pass a one-character separator). -/
def splitOnCharL (sep : Char) : List Char → List (List Char)
  | [] => [[]]
  | c :: rest =>
    let r := splitOnCharL sep rest
    if c = sep then [] :: r
    else
      match r with
      | [] => [[c]]
      | h :: t => (c :: h) :: t

def splitStr (s : String) (sep : Char) : List String :=
  (splitOnCharL sep s.data).map (fun l => ⟨l⟩)

def lowerChar (c : Char) : Char :=
  if 'A' ≤ c ∧ c ≤ 'Z' then Char.ofNat (c.toNat + 32) else c

def upperChar (c : Char) : Char :=
  if 'a' ≤ c ∧ c ≤ 'z' then Char.ofNat (c.toNat - 32) else c

def toLowerStr (s : String) : String := ⟨s.data.map lowerChar⟩

def toUpperStr (s : String) : String := ⟨s.data.map upperChar⟩

/-- Models Go `strings.EqualFold` (ASCII case folding). -/
def equalFold (a b : String) : Bool := a.data.map lowerChar == b.data.map lowerChar

/-- The placeholder wrapper: `ph v` is the string `\x7b\x7b` ++ v ++ `\x7d\x7d`,
i.e. the identifier wrapped in double braces. -/
def ph (v : String) : String := "\x7b\x7b" ++ v ++ "\x7d\x7d"

/-! ### Lenient numeric parsing (`utils.ParseFloat`, `utils.ParseInt`) -/

def digitsToNat (cs : List Char) : Nat :=
  cs.foldl (fun acc c => 10 * acc + (c.toNat - '0'.toNat)) 0

def parseUnsignedDec (cs : List Char) : Option Rat :=
  let ip := cs.takeWhile (·.isDigit)
  let rest := cs.dropWhile (·.isDigit)
  match rest with
  | [] => if ip.isEmpty then none else some (digitsToNat ip : Rat)
  | '.' :: fp =>
    if fp.all (·.isDigit) && !(ip.isEmpty && fp.isEmpty) then
      some ((digitsToNat ip : Rat) + (digitsToNat fp : Rat) / ((10 : Rat) ^ fp.length))
    else none
  | _ => none

/-- Decimal parser modelling `strconv.ParseFloat` restricted to plain decimal
notation (the notation templates use). -/
def parseDec (s : String) : Option Rat :=
  match s.data with
  | '-' :: cs => (parseUnsignedDec cs).map (fun q => -q)
  | '+' :: cs => parseUnsignedDec cs
  | cs => parseUnsignedDec cs

/-- `utils.ParseFloat`: empty or unparsable input becomes `0` (with a logged
warning in the source). -/
def ParseFloat (s : String) : Rat :=
  if s = "" then 0 else
    match parseDec s with
    | some q => q
    | none => 0

def parseSignedInt (s : String) : Option Int :=
  match s.data with
  | '-' :: cs => if cs ≠ [] ∧ cs.all (·.isDigit) then some (-(digitsToNat cs : Int)) else none
  | '+' :: cs => if cs ≠ [] ∧ cs.all (·.isDigit) then some (digitsToNat cs : Int) else none
  | cs => if cs ≠ [] ∧ cs.all (·.isDigit) then some (digitsToNat cs : Int) else none

/-- `utils.ParseInt`: empty or unparsable input becomes `0`. -/
def ParseInt (s : String) : Int :=
  if s = "" then 0 else
    match parseSignedInt s with
    | some i => i
    | none => 0

/-- `utils.Coalesce`: first non-empty string of the list. -/
def Coalesce (values : List String) : String :=
  ((values.find? (fun v => v != "")).getD "")

/-- `utils.NormalizeAlign`. -/
def NormalizeAlign (align : String) : String :=
  match toUpperStr align with
  | "LEFT" => "L"
  | "L" => "L"
  | "CENTER" => "C"
  | "C" => "C"
  | "RIGHT" => "R"
  | "R" => "R"
  | _ => "L"

/-! ### The dynamically-typed request data (Go `map[string]interface{}`)

Deserialized JSON request fields.  `goFmt` models `fmt.Sprintf("%v", v)`:
faithful for strings and booleans; for numbers and composites it produces a
deterministic textual form (the exact Go rendering of those shapes is not
load-bearing for any claim). -/

inductive GoValue where
  | str : String → GoValue
  | num : Rat → GoValue
  | boolean : Bool → GoValue
  | arr : List GoValue → GoValue
  | obj : List (String × GoValue) → GoValue

mutual

def goFmt : GoValue → String
  | .str s => s
  | .num q => toString q
  | .boolean b => if b then "true" else "false"
  | .arr items => "[" ++ goFmtList items ++ "]"
  | .obj fields => "map[" ++ goFmtObj fields ++ "]"

def goFmtList : List GoValue → String
  | [] => ""
  | [v] => goFmt v
  | v :: rest => goFmt v ++ " " ++ goFmtList rest

def goFmtObj : List (String × GoValue) → String
  | [] => ""
  | [kv] => kv.1 ++ ":" ++ goFmt kv.2
  | kv :: rest => kv.1 ++ ":" ++ goFmt kv.2 ++ " " ++ goFmtObj rest

end

/-- The request data context (`map[string]interface{}`), as an association
list; lookup takes the first binding, so shadowing a key by consing models a
map update. -/
abbrev DataCtx := List (String × GoValue)

def dataGet (data : DataCtx) (k : String) : Option GoValue :=
  (data.find? (fun kv => kv.1 == k)).map (·.2)

/-! ### `utils` variable resolution (`internal/utils/helpers.go`) -/

/-- `utils.ReplaceVariables`: replace `\x7b\x7bkey\x7d\x7d` for every binding of
the data map.  (Go iterates the map in unspecified order; the list order stands
in for one such order.) -/
def ReplaceVariables (text : String) (data : DataCtx) : String :=
  data.foldl (fun res kv => replaceAll res (ph kv.1) (goFmt kv.2)) text

/-- `utils.ReplaceVariablesInArray`: resolves a single identifier or a
bracketed comma-separated list of identifiers; absent identifiers fall back to
a case-insensitive match against keys with trailing colons stripped, and if
still absent the text is returned unchanged.  Total: resolution never fails. -/
def ReplaceVariablesInArray (text variableName : String) (data : DataCtx) : String :=
  if !(startsWithStr variableName "[") || !(endsWithStr variableName "]") then
    match dataGet data variableName with
    | some v => replaceAll text (ph variableName) (goFmt v)
    | none =>
      match data.find? (fun kv => equalFold (trimRightStr kv.1 ":") variableName) with
      | some kv => replaceAll text (ph variableName) (goFmt kv.2)
      | none => text
  else
    let varsStr := trimStr variableName "[]"
    let vars := splitStr varsStr ','
    vars.foldl (fun result varName =>
      let cleanVar := trimStr (trimStr varName "\"") " "
      match dataGet data cleanVar with
      | some v => replaceAll result (ph cleanVar) (goFmt v)
      | none =>
        match data.find? (fun kv => equalFold (trimRightStr kv.1 ":") cleanVar) with
        | some kv => replaceAll result (ph cleanVar) (goFmt kv.2)
        | none => result) text

/-- `utils.GetArrayFieldValue`: extract a named field of an array item; items
that are not mappings (or lack the field) yield the empty string. -/
def GetArrayFieldValue (item : GoValue) (fieldName : String) : String :=
  match item with
  | .obj fields =>
    match (fields.find? (fun kv => kv.1 == fieldName)).map (·.2) with
    | some v => goFmt v
    | none => ""
  | _ => ""

/-! ### The element model (`internal/models/pdf_elements.go`) -/

def ElementTypeText : String := "text"
def ElementTypeBox : String := "box"
def ElementTypeImage : String := "image"
def ElementTypeQR : String := "qr"
def ElementTypeBarcode : String := "barcode"
def ElementTypeTable : String := "table"

structure Position where
  x : Rat
  y : Rat
deriving DecidableEq, Repr

structure Size where
  width : Rat
  height : Rat
deriving DecidableEq, Repr

structure Font where
  family : String
  style : String
  size : Rat
deriving DecidableEq, Repr

structure Color where
  r : Int
  g : Int
  b : Int
  isSet : Bool
deriving DecidableEq, Repr

structure Style where
  font : Font
  border : String
  align : String
  rotateDegree : Int
  rotateType : String
  textColor : Color
  background : Color
  imageSrc : String
deriving DecidableEq, Repr

structure TableColumn where
  field : String
  width : Rat
  align : String
  fontStyle : String
deriving DecidableEq, Repr

/-- `models.PDFElement` (the Go field `Type` is named `etype` here because
`Type` is reserved in Lean). -/
structure PDFElement where
  etype : String
  method : String
  text : String
  variableName : String
  loopField : String
  position : Position
  size : Size
  style : Style
  columns : List TableColumn
  qrContent : String
  barcodeFormat : String
  barcodeContent : String
deriving DecidableEq, Repr

/-- `PDFElement.Validate`: Go mutates the receiver (the barcode-format
default) and returns an error; modelled as (post-state, optional error). -/
def PDFElement.Validate (e : PDFElement) : PDFElement × Option String :=
  if e.etype = "" then (e, some "element type is required")
  else if e.position.x < 0 ∨ e.position.y < 0 then (e, some "invalid position")
  else if e.size.width ≤ 0 ∨ e.size.height ≤ 0 then (e, some "invalid size")
  else if e.etype = ElementTypeQR then
    if e.qrContent = "" ∧ e.variableName = "" then
      (e, some "QR element requires either qrContent or variableName")
    else (e, none)
  else if e.etype = ElementTypeBarcode then
    if e.barcodeContent = "" ∧ e.variableName = "" then
      (e, some "barcode element requires either barcodeContent or variableName")
    else if e.barcodeFormat = "" then ({ e with barcodeFormat := "Code128" }, none)
    else (e, none)
  else if e.etype = ElementTypeImage then
    if e.style.imageSrc = "" ∧ e.variableName = "" then
      (e, some "image element requires either imageSrc or variableName")
    else (e, none)
  else (e, none)

def PDFElement.IsLoopElement (e : PDFElement) : Bool := e.loopField != ""

/-- `PDFElement.GetTextContent`. -/
def PDFElement.GetTextContent (e : PDFElement) (data : DataCtx) : String :=
  let content := e.text
  let content :=
    if e.etype = ElementTypeQR then
      if e.qrContent ≠ "" then e.qrContent
      else if e.variableName ≠ "" then
        match dataGet data e.variableName with
        | some v => goFmt v
        | none => content
      else content
    else content
  if e.etype = ElementTypeBarcode then
    if e.barcodeContent ≠ "" then e.barcodeContent
    else if e.variableName ≠ "" then
      match dataGet data e.variableName with
      | some v => goFmt v
      | none => content
    else content
  else content

/-- `PDFElement.Clone` (a deep copy; observationally the identity on the
immutable model). -/
def PDFElement.Clone (e : PDFElement) : PDFElement := e

/-- `PDFElement.String` (used only as hash input): a deterministic textual
rendering standing in for the JSON marshalling. -/
def elemString (e : PDFElement) : String := toString (repr e)

/-! ### The CSV template parser (`internal/parsers/csv_parser.go`)

The `encoding/csv` layer is modelled at the record level: a file's content is
its list of records (each a list of fields).  The reader's quoting rules are
below this model; its field-count rule is in `parseCSVRows`. -/

/-- `CSVParser.parseElementType`: explicit recognized `type` wins, otherwise
the type is inferred from `method`, defaulting to `text`. -/
def parseElementType (typeField methodField : String) : String :=
  let fromMethod :=
    match methodField with
    | "MultiCell" => ElementTypeText
    | "Cell" => ElementTypeText
    | "Rect" => ElementTypeBox
    | "Image" => ElementTypeImage
    | "QR" => ElementTypeQR
    | "Barcode" => ElementTypeBarcode
    | _ => ElementTypeText
  if typeField ≠ "" then
    match toLowerStr typeField with
    | "text" => ElementTypeText
    | "box" => ElementTypeBox
    | "image" => ElementTypeImage
    | "qr" => ElementTypeQR
    | "barcode" => ElementTypeBarcode
    | "table" => ElementTypeTable
    | _ => fromMethod
  else fromMethod

/-- The per-row header→value map (`data[header] = record[i]`): Go's map build
gives the LAST occurrence of a duplicated header; a missing header yields the
zero value `""`. -/
def rowGet (headers record : List String) (key : String) : String :=
  ((headers.zip record).foldl
    (fun acc hv => if hv.1 = key then some hv.2 else acc) none).getD ""

/-- `CSVParser.parseColumns` (`"field:width:align:fontStyle"` entries split on
commas; entries with fewer than two parts are dropped). -/
def parseColumns (columnsData : String) : List TableColumn :=
  (splitStr columnsData ',').foldl (fun cols part =>
    let columnParts := splitStr (trimSpace part) ':'
    if columnParts.length ≥ 2 then
      cols ++ [{ field := trimSpace (columnParts.getD 0 "")
                 width := ParseFloat (columnParts.getD 1 "")
                 align := if columnParts.length ≥ 3 then NormalizeAlign (columnParts.getD 2 "") else "L"
                 fontStyle := if columnParts.length ≥ 4 then columnParts.getD 3 "" else "" }]
    else cols) []

/-- `CSVParser.createElementFromRow` (never fails in the source: the returned
`error` is always nil). -/
def createElementFromRow (headers record : List String) : PDFElement :=
  let data := rowGet headers record
  let e : PDFElement :=
    { etype := parseElementType (data "type") (data "method")
      method := data "method"
      text := data "text"
      variableName := data "variableName"
      loopField := data "loopField"
      position := { x := ParseFloat (data "x"), y := ParseFloat (data "y") }
      size := { width := ParseFloat (data "width"), height := ParseFloat (data "height") }
      style :=
        { font := { family := Coalesce [data "font", "Tahoma"]
                    style := data "fontStyle"
                    size := ParseFloat (data "fontSize") }
          border := data "border"
          align := NormalizeAlign (data "align")
          rotateDegree := ParseInt (data "rotateDegree")
          rotateType := data "rotateType"
          textColor := { r := ParseInt (data "colorR"), g := ParseInt (data "colorG")
                         b := ParseInt (data "colorB")
                         isSet := data "colorR" != "" || data "colorG" != "" || data "colorB" != "" }
          background := { r := ParseInt (data "bgColorR"), g := ParseInt (data "bgColorG")
                          b := ParseInt (data "bgColorB")
                          isSet := data "background" == "1" }
          imageSrc := data "imageSrc" }
      columns := []
      qrContent := data "qrContent"
      barcodeFormat := Coalesce [data "barcodeFormat", "Code128"]
      barcodeContent := data "barcodeContent" }
  let e := if e.style.font.size = 0 then
             { e with style := { e.style with font := { e.style.font with size := 10 } } }
           else e
  if data "columns" ≠ "" then { e with columns := parseColumns (data "columns") } else e

/-- The row loop of `CSVParser.parseCSVFile`.  Go's `csv.Reader` (with
`FieldsPerRecord` defaulted to the header's field count) returns
`ErrFieldCount` from `Read` for a record whose field count differs, and the
source treats every non-EOF read error as fatal (line 79-81), so a mismatched
row aborts the parse; the explicit mismatch check at line 85 is transcribed
below but is unreachable. -/
def parseCSVRows (headers : List String) :
    List (List String) → List PDFElement → Except String (List PDFElement)
  | [], acc => .ok acc
  | record :: rest, acc =>
    if record.length ≠ headers.length then
      .error "error reading CSV row: wrong number of fields"
    else if record.length ≠ headers.length then
      -- dead code in the source (line 85-89): the reader already errored above
      parseCSVRows headers rest acc
    else
      let element := createElementFromRow headers record
      match element.Validate with
      | (_, some _) => parseCSVRows headers rest acc
      | (validated, none) => parseCSVRows headers rest (acc ++ [validated])

/-- `CSVParser.parseCSVFile` over the file's records. -/
def parseCSVFile : List (List String) → Except String (List PDFElement)
  | [] => .error "error reading CSV headers"
  | headers :: rows => parseCSVRows headers rows []

/-! ### The template cache (`internal/cache/template_cache.go`) -/

structure CacheEntry where
  elements : List PDFElement
  hash : String
  createdAt : Int
  accessedAt : Int
  fileModTime : Int
deriving DecidableEq, Repr

/-- What `os.Stat` and `os.Open` see for one path: modification time and the
CSV records of the file. -/
structure FileInfo where
  modTime : Int
  records : List (List String)
deriving DecidableEq

/-- The file system, as seen through `os.Stat`/`os.Open`: `none` models a stat
failure (file absent). -/
abbrev FS := String → Option FileInfo

structure TemplateCache where
  entries : List (String × CacheEntry)
  maxSize : Nat
  ttl : Int
deriving Repr

def lookupEntry (l : List (String × CacheEntry)) (k : String) : Option CacheEntry :=
  (l.find? (fun kv => kv.1 == k)).map (·.2)

def eraseEntry (l : List (String × CacheEntry)) (k : String) :
    List (String × CacheEntry) :=
  l.filter (fun kv => kv.1 != k)

def insertEntry (l : List (String × CacheEntry)) (k : String) (v : CacheEntry) :
    List (String × CacheEntry) :=
  if (l.find? (fun kv => kv.1 == k)).isSome then
    l.map (fun kv => if kv.1 == k then (kv.1, v) else kv)
  else l ++ [(k, v)]

def touchEntry (l : List (String × CacheEntry)) (k : String) (now : Int) :
    List (String × CacheEntry) :=
  l.map (fun kv => if kv.1 == k then (kv.1, { kv.2 with accessedAt := now }) else kv)

/-- `TemplateCache.Get`: hit only when the entry exists, the file still stats,
the on-disk modification time has not advanced past the recorded one, and the
entry's age is within the TTL; every other case deletes the entry (where one
exists) and misses.  On a hit the access time is touched. -/
def TemplateCache.Get (tc : TemplateCache) (fs : FS) (now : Int) (filePath : String) :
    TemplateCache × Option (List PDFElement) :=
  match lookupEntry tc.entries filePath with
  | none => (tc, none)
  | some entry =>
    match fs filePath with
    | none => ({ tc with entries := eraseEntry tc.entries filePath }, none)
    | some fileInfo =>
      if fileInfo.modTime > entry.fileModTime then
        ({ tc with entries := eraseEntry tc.entries filePath }, none)
      else if now - entry.createdAt > tc.ttl then
        ({ tc with entries := eraseEntry tc.entries filePath }, none)
      else
        ({ tc with entries := touchEntry tc.entries filePath now }, some entry.elements)

/-- `TemplateCache.calculateHash` (md5 of the concatenated element strings;
the digest itself is injective-in-practice and modelled by the concatenation,
which preserves the only property used: equal element lists hash equally). -/
def calculateHash (elements : List PDFElement) : String :=
  String.join (elements.map elemString)

/-- The scan loop of `TemplateCache.evictOldest` (`oldestKey` starts as `""`;
Go's randomized map order is modelled by the list order — the scan's result is
an entry of minimal access time for every order). -/
def scanOldest : List (String × CacheEntry) → String × Int → String × Int
  | [], acc => acc
  | kv :: rest, acc =>
    scanOldest rest
      (if acc.1 = "" ∨ kv.2.accessedAt < acc.2 then (kv.1, kv.2.accessedAt) else acc)

def TemplateCache.evictOldest (tc : TemplateCache) : TemplateCache :=
  let oldestKey := (scanOldest tc.entries ("", 0)).1
  if oldestKey ≠ "" then { tc with entries := eraseEntry tc.entries oldestKey } else tc

/-- `TemplateCache.Set`: stat failure caches nothing; otherwise insert a fresh
entry and evict the least-recently-accessed entry if over capacity. -/
def TemplateCache.Set (tc : TemplateCache) (fs : FS) (now : Int) (filePath : String)
    (elements : List PDFElement) : TemplateCache :=
  match fs filePath with
  | none => tc
  | some fileInfo =>
    let entry : CacheEntry :=
      { elements := elements, hash := calculateHash elements
        createdAt := now, accessedAt := now, fileModTime := fileInfo.modTime }
    let entries1 := insertEntry tc.entries filePath entry
    let tc1 := { tc with entries := entries1 }
    if entries1.length > tc.maxSize then tc1.evictOldest else tc1

def TemplateCache.Clear (tc : TemplateCache) : TemplateCache :=
  { tc with entries := [] }

/-- The body of one tick of the `cleanup` goroutine. -/
def TemplateCache.sweep (tc : TemplateCache) (now : Int) : TemplateCache :=
  { tc with entries := tc.entries.filter (fun kv => !(decide (now - kv.2.createdAt > tc.ttl))) }

/-- Opening and parsing the file (`parseCSVFile` in the source opens the path
itself). -/
def parseCSVFromFS (fs : FS) (filePath : String) : Except String (List PDFElement) :=
  match fs filePath with
  | none => .error "error opening CSV file"
  | some fi => parseCSVFile fi.records

def wrapParseResult : Except String (List PDFElement) → Except String (List PDFElement)
  | .ok es => .ok es
  | .error m => .error ("failed to parse CSV file: " ++ m)

/-- `CSVParser.ParseCSV` — the cached fetch: try the cache, else parse and
insert. -/
def fetchCSV (tc : TemplateCache) (fs : FS) (now : Int) (filePath : String) :
    TemplateCache × Except String (List PDFElement) :=
  match tc.Get fs now filePath with
  | (tc1, some elements) => (tc1, .ok elements)
  | (tc1, none) =>
    match parseCSVFromFS fs filePath with
    | .error e => (tc1, .error ("failed to parse CSV file: " ++ e))
    | .ok elements => (tc1.Set fs now filePath elements, .ok elements)

/-! ### The font cache and `setupFonts` (`template_cache.go`, `pdf_generator.go`) -/

structure FontCache where
  fonts : List String
  loaded : Bool
deriving DecidableEq, Repr

def NewFontCache : FontCache := { fonts := [], loaded := false }

def FontCache.IsLoaded (fc : FontCache) (fontName : String) : Bool :=
  fc.fonts.contains fontName

def FontCache.MarkLoaded (fc : FontCache) (fontName : String) : FontCache :=
  { fc with fonts := fc.fonts ++ [fontName] }

def FontCache.IsSystemLoaded (fc : FontCache) : Bool := fc.loaded

def FontCache.MarkSystemLoaded (fc : FontCache) : FontCache :=
  { fc with loaded := true }

/-- The per-document state of one `fpdf.Fpdf` render target, restricted to
what `setupFonts` touches: the fonts registered into the document by
`AddUTF8Font` (family, style) and the current font set by `SetFont`. -/
structure FpdfInst where
  registeredFonts : List (String × String)
  currentFont : Option (String × String × Rat)
deriving DecidableEq, Repr

/-- A freshly constructed `fpdf.New(...)` document: no UTF-8 fonts registered,
no font set. -/
def newFpdf : FpdfInst := { registeredFonts := [], currentFont := none }

/-- `PDFGenerator.setupFonts`: guarded by the shared `FontCache`'s
process-wide `loaded` flag; when that flag is clear, registers the two Tahoma
faces whose files exist into THIS document, marks them in the shared cache,
sets the document's default font and marks the system loaded.  (The Go `fonts`
map has two keys; its randomized iteration order touches disjoint keys, so the
fixed order here is observationally equivalent.) -/
def setupFonts (fc : FontCache) (pdf : FpdfInst) (fileExists : String → Bool) :
    FontCache × FpdfInst :=
  if fc.IsSystemLoaded then (fc, pdf)
  else
    let step := fun (st : FontCache × FpdfInst) (kv : String × String) =>
      if !(st.1.IsLoaded kv.1) then
        if fileExists ("./fonts/" ++ kv.2) then
          let pdf1 :=
            if kv.1 = "TahomaB" then
              { st.2 with registeredFonts := st.2.registeredFonts ++ [("Tahoma", "B")] }
            else
              { st.2 with registeredFonts := st.2.registeredFonts ++ [(kv.1, "")] }
          (st.1.MarkLoaded kv.1, pdf1)
        else st
      else st
    let st := [("Tahoma", "tahoma.ttf"), ("TahomaB", "tahomabd.TTF")].foldl step (fc, pdf)
    (st.1.MarkSystemLoaded, { st.2 with currentFont := some ("Tahoma", "", (10 : Rat)) })

/-! ### The new generator (`internal/generators/pdf_generator.go`)

The drawing backend is out of scope; a render is modelled by its trace of
drawing-primitive calls (`DrawEvent`s).  External raster encoders and the
temp-file round trip of QR/barcode elements are modelled as a successful
image placement (their failure modes live outside the embedded state). -/

structure DrawEvent where
  kind : String
  x : Rat
  y : Rat
  width : Rat
  height : Rat
  content : String
deriving DecidableEq, Repr

/-- `PDFGenerator.replaceVariables`. -/
def replaceVariablesG (text variableName : String) (data : DataCtx) : String :=
  if variableName ≠ "" then ReplaceVariablesInArray text variableName data
  else ReplaceVariables text data

/-- `PDFGenerator.processTextElement` (never returns an error): one cell or
wrapped-cell draw, after variable resolution. -/
def processTextElement (e : PDFElement) (data : DataCtx) : List DrawEvent :=
  let text := replaceVariablesG e.text e.variableName data
  match e.method with
  | "MultiCell" =>
    [{ kind := "multicell", x := e.position.x, y := e.position.y,
       width := e.size.width, height := e.style.font.size * (1 / 2), content := text }]
  | _ =>
    [{ kind := "cell", x := e.position.x, y := e.position.y,
       width := e.size.width, height := e.size.height, content := text }]

/-- `PDFGenerator.processBoxElement` (never returns an error). -/
def processBoxElement (e : PDFElement) : List DrawEvent :=
  [{ kind := if e.style.background.isSet then "rectFD" else "rectD",
     x := e.position.x, y := e.position.y,
     width := e.size.width, height := e.size.height, content := "" }]

/-- `PDFGenerator.processImageElement`. -/
def processImageElement (fileExists : String → Bool) (e : PDFElement) (data : DataCtx) :
    List DrawEvent × Option String :=
  let imagePath := e.style.imageSrc
  let imagePath :=
    if imagePath = "" ∧ e.variableName ≠ "" then
      match dataGet data e.variableName with
      | some v => goFmt v
      | none => imagePath
    else imagePath
  if imagePath = "" then ([], some "image path not specified")
  else if !(fileExists imagePath) then ([], some ("image file not found: " ++ imagePath))
  else ([{ kind := "image", x := e.position.x, y := e.position.y,
           width := e.size.width, height := e.size.height, content := imagePath }], none)

/-- `PDFGenerator.processQRElement` (the raster encoder and temp file are
external and modelled as succeeding). -/
def processQRElement (e : PDFElement) (data : DataCtx) : List DrawEvent × Option String :=
  let content := e.GetTextContent data
  let content := if content = "" then replaceVariablesG e.qrContent e.variableName data
                 else content
  if content = "" then ([], some "QR content is empty")
  else ([{ kind := "image", x := e.position.x, y := e.position.y,
           width := e.size.width, height := e.size.height, content := content }], none)

/-- `PDFGenerator.processBarcodeElement` (likewise). -/
def processBarcodeElement (e : PDFElement) (data : DataCtx) : List DrawEvent × Option String :=
  let content := e.GetTextContent data
  let content := if content = "" then replaceVariablesG e.barcodeContent e.variableName data
                 else content
  if content = "" then ([], some "barcode content is empty")
  else ([{ kind := "image", x := e.position.x, y := e.position.y,
           width := e.size.width, height := e.size.height, content := content }], none)

/-- The result of processing one element: the draws it performed and the error
it returned (logged by the caller), or `none` when the given call-depth fuel
was exhausted.  Go has no fuel: a result of `none` for EVERY fuel means the
source function does not terminate on that input. -/
abbrev PRes := Option (List DrawEvent × Option String)

mutual

/-- `PDFGenerator.processElement`, fuel-indexed on nested call depth.  Note
the source validates its by-value copy (mutating it via the pointer receiver)
and dispatches on the mutated copy. -/
def processElementFuel (fileExists : String → Bool) :
    Nat → PDFElement → DataCtx → PRes
  | 0, _, _ => none
  | Nat.succ n, element, data =>
    match element.Validate with
    | (_, some err) => some ([], some ("element validation failed: " ++ err))
    | (e, none) =>
      if e.IsLoopElement then processLoopElementFuel fileExists n e data
      else if e.etype = ElementTypeText then some (processTextElement e data, none)
      else if e.etype = ElementTypeBox then some (processBoxElement e, none)
      else if e.etype = ElementTypeImage then some (processImageElement fileExists e data)
      else if e.etype = ElementTypeQR then some (processQRElement e data)
      else if e.etype = ElementTypeBarcode then some (processBarcodeElement e data)
      else if e.etype = ElementTypeTable then some ([], none)
      else some ([], some ("unsupported element type: " ++ e.etype))
termination_by n _ _ => (n, 0, 0)

/-- `PDFGenerator.processLoopElement`.  The clone keeps `loopField`, so each
per-item `processElement` call re-enters this function. -/
def processLoopElementFuel (fileExists : String → Bool) :
    Nat → PDFElement → DataCtx → PRes
  | n, element, data =>
    let parts := splitStr element.loopField '.'
    if parts.length ≠ 2 then
      some ([], some ("invalid loopField format: " ++ element.loopField))
    else
      let arrayName := parts.getD 0 ""
      let fieldName := parts.getD 1 ""
      match dataGet data arrayName with
      | none => some ([], some ("array field not found: " ++ arrayName))
      | some arrayData =>
        match arrayData with
        | .arr items => loopItemsFuel fileExists n element fieldName items element.position.y data
        | _ => some ([], some ("field is not an array: " ++ arrayName))
termination_by n _ _ => (n, 2, 0)

/-- The item loop of `processLoopElement`: per item, clone the element at the
current y, bind `itemData[loopField]`, process the clone (an error is logged
and the loop continues), and advance y by `height + 2`.  The terminal write to
`lastYPositions` touches only the (write-only) ledger and is outside the draw
trace. -/
def loopItemsFuel (fileExists : String → Bool) :
    Nat → PDFElement → String → List GoValue → Rat → DataCtx → PRes
  | _, _, _, [], _, _ => some ([], none)
  | n, element, fieldName, item :: rest, currentY, data =>
    let elementCopy := { element with position := { element.position with y := currentY } }
    let itemValue := GetArrayFieldValue item fieldName
    let itemData : DataCtx := (element.loopField, GoValue.str itemValue) :: data
    match processElementFuel fileExists n elementCopy itemData with
    | none => none
    | some (draws, _) =>
      match loopItemsFuel fileExists n element fieldName rest
              (currentY + (element.size.height + 2)) data with
      | none => none
      | some (restDraws, e2) => some (draws ++ restDraws, e2)
termination_by n _ _ items _ _ => (n, 1, items.length)

end

/-! ### The legacy render path (`invoice_from_csv_template.go`)

`processElement`/`GeneratePDF` of the legacy file: the process-wide
`lastYPositions` ledger is threaded explicitly (it starts empty when the
process starts).  `wrapY currentY content` models `pdf.GetY()` after a
`MultiCell` draw that started at `currentY` (wrapped-text height is computed
by the drawing backend, not by this code). -/

abbrev Ledger := List (String × Rat)

def ledgerSet (l : Ledger) (k : String) (v : Rat) : Ledger :=
  l.filter (fun kv => kv.1 != k) ++ [(k, v)]

def lookupLedger (l : Ledger) (k : String) : Option Rat :=
  (l.find? (fun kv => kv.1 == k)).map (·.2)

/-- `math.Round` (half away from zero). -/
def goRound (x : Rat) : Rat :=
  if 0 ≤ x then (((x + 1 / 2).floor : Int) : Rat) else -((((-x) + 1 / 2).floor : Int) : Rat)

/-- `math.Round(y*10)/10` — the one-decimal rounding of the box loop. -/
def goRound10 (q : Rat) : Rat := goRound (q * 10) / 10

/-- The legacy `PDFElement` struct (flat fields). -/
structure PDFElementOld where
  etype : String
  method : String
  text : String
  variableName : String
  x : Rat
  y : Rat
  width : Rat
  height : Rat
  font : String
  fontStyle : String
  fontSize : Rat
  align : String
  rotateDegree : Int
  border : String
  colorR : Int
  colorG : Int
  colorB : Int
  background : String
  bgColorR : Int
  bgColorG : Int
  bgColorB : Int
  imageSrc : String
  rotateType : String
  loopField : String
deriving DecidableEq, Repr

/-- The per-item loop of the legacy text/table loop branch (lines 238-312):
extract the field, substitute the looped placeholder then every non-array
input binding, draw, and advance y (`GetY()+2` for `MultiCell`,
`height+2` for `Cell`).  Returns the draws and the final `currentY`. -/
def loopTextRows (wrapY : Rat → String → Rat) (el : PDFElementOld)
    (arrayName : String) (input : DataCtx) (fieldName : String) :
    List GoValue → Rat → List DrawEvent × Rat
  | [], currentY => ([], currentY)
  | item :: rest, currentY =>
    let itemStr := GetArrayFieldValue item fieldName
    let itemStr :=
      if el.text ≠ "" then
        let s := replaceAll el.text (ph el.loopField) itemStr
        input.foldl
          (fun s kv => if kv.1 ≠ arrayName then replaceAll s (ph kv.1) (goFmt kv.2) else s) s
      else itemStr
    if el.method = "MultiCell" then
      let ev : DrawEvent :=
        { kind := "multicell", x := el.x, y := currentY,
          width := el.width, height := el.fontSize * (1 / 2), content := itemStr }
      let r := loopTextRows wrapY el arrayName input fieldName rest (wrapY currentY itemStr + 2)
      (ev :: r.1, r.2)
    else
      let ev : DrawEvent :=
        { kind := "cell", x := el.x, y := currentY,
          width := el.width, height := el.height, content := itemStr }
      let r := loopTextRows wrapY el arrayName input fieldName rest (currentY + el.height + 2)
      (ev :: r.1, r.2)

/-- The per-item loop of the legacy box loop branch (lines 461-485): items that
are not mappings or lack the field are skipped without advancing y; otherwise
y is rounded to one decimal, a rectangle and its inner text are drawn, and y
advances by `height` (no extra spacing on this path). -/
def loopBoxRows (el : PDFElementOld) (fieldName : String) :
    List GoValue → Rat → List DrawEvent × Rat
  | [], currentY => ([], currentY)
  | item :: rest, currentY =>
    match item with
    | .obj fields =>
      match fields.find? (fun kv => kv.1 == fieldName) with
      | some kv =>
        let y1 := goRound10 currentY
        let rectEv : DrawEvent :=
          { kind := if el.background = "1" then "rectFD" else "rectD",
            x := el.x, y := y1, width := el.width, height := el.height, content := "" }
        let textEv : DrawEvent :=
          { kind := "multicell", x := el.x, y := y1,
            width := el.width, height := el.height, content := goFmt kv.2 }
        let r := loopBoxRows el fieldName rest (y1 + el.height)
        (rectEv :: textEv :: r.1, r.2)
      | none => loopBoxRows el fieldName rest currentY
    | _ => loopBoxRows el fieldName rest currentY

/-- The non-loop text path of the legacy `processElement` (lines 321-431):
variable substitution (bracketed lists get a case-insensitive fallback, the
plain single-variable path does not), then a `Cell`/`MultiCell` draw; other
methods draw nothing. -/
def normalTextOld (el : PDFElementOld) (input : DataCtx) : List DrawEvent :=
  let text := el.text
  let text :=
    if el.variableName ≠ "" then
      if startsWithStr el.variableName "[" && endsWithStr el.variableName "]" then
        let varsStr := trimStr el.variableName "[]"
        let vars := (splitStr varsStr ',').map (fun v => trimStr (trimStr v "\"") " ")
        vars.foldl (fun text varName =>
          match dataGet input varName with
          | some v => replaceAll text (ph varName) (goFmt v)
          | none =>
            match input.find? (fun kv => equalFold (trimRightStr kv.1 ":") varName) with
            | some kv => replaceAll text (ph varName) (goFmt kv.2)
            | none => text) text
      else
        match dataGet input el.variableName with
        | some v => replaceAll text (ph el.variableName) (goFmt v)
        | none => text
    else text
  match el.method with
  | "MultiCell" =>
    [{ kind := "multicell", x := el.x, y := el.y,
       width := el.width, height := el.fontSize * (1 / 2), content := text }]
  | "Cell" =>
    [{ kind := "cell", x := el.x, y := el.y,
       width := el.width, height := el.height, content := text }]
  | _ => []

def normalBoxOld (el : PDFElementOld) : List DrawEvent :=
  [{ kind := if el.background = "1" then "rectFD" else "rectD",
     x := el.x, y := el.y, width := el.width, height := el.height, content := "" }]

/-- The legacy `processElement`.  On both loop branches the final `currentY`
is stored into the `lastYPositions` ledger — which no code path ever reads:
each loop starts at the element's own declared `y`. -/
def processElementOld (wrapY : Rat → String → Rat) (fileExists : String → Bool)
    (el : PDFElementOld) (input : DataCtx) (ledger : Ledger) : List DrawEvent × Ledger :=
  if el.etype = "table" ∨ el.etype = "text" then
    if el.loopField ≠ "" then
      let parts := splitStr el.loopField '.'
      if parts.length ≠ 2 then ([], ledger)
      else
        let arrayName := parts.getD 0 ""
        let fieldName := parts.getD 1 ""
        match dataGet input arrayName with
        | some (.arr items) =>
          let r := loopTextRows wrapY el arrayName input fieldName items el.y
          (r.1, ledgerSet ledger arrayName r.2)
        | _ => (normalTextOld el input, ledger)
    else (normalTextOld el input, ledger)
  else if el.etype = "box" then
    if el.loopField ≠ "" then
      let parts := splitStr el.loopField '.'
      if parts.length ≠ 2 then ([], ledger)
      else
        let arrayName := parts.getD 0 ""
        let fieldName := parts.getD 1 ""
        match dataGet input arrayName with
        | some (.arr items) =>
          let r := loopBoxRows el fieldName items el.y
          (r.1, ledgerSet ledger arrayName r.2)
        | _ => (normalBoxOld el, ledger)
    else (normalBoxOld el, ledger)
  else if el.etype = "image" then
    if el.imageSrc ≠ "" ∧ fileExists el.imageSrc then
      ([{ kind := "image", x := el.x, y := el.y,
          width := el.width, height := el.height, content := el.imageSrc }], ledger)
    else ([], ledger)
  else ([], ledger)

/-- The legacy `GeneratePDF` element walk (lines 171-206): skip elements with
empty type/method, negative coordinates or non-positive dimensions, process
the rest in sequence.  The ledger starts empty (the process-wide map's initial
state). -/
def GeneratePDFOld (wrapY : Rat → String → Rat) (fileExists : String → Bool)
    (elements : List PDFElementOld) (input : DataCtx) : List DrawEvent × Ledger :=
  elements.foldl (fun st el =>
    if el.etype = "" ∨ el.method = "" then st
    else if el.x < 0 ∨ el.y < 0 then st
    else if el.width ≤ 0 ∨ el.height ≤ 0 then st
    else
      let r := processElementOld wrapY fileExists el input st.2
      (st.1 ++ r.1, r.2)) ([], [])

/-! ### The locking discipline of the template cache, statically

Each operation of `template_cache.go` is transcribed as its sequence of lock
and store actions; `writesLocked` checks that every store mutation happens
while the exclusive lock is held. -/

inductive LockMode where
  | unlocked
  | shared
  | exclusive
deriving DecidableEq, Repr

inductive LockAct where
  | acqShared
  | acqExcl
  | rel
  | readStore
  | writeStore
deriving DecidableEq, Repr

/-- `Get`, miss path (lines 77-83): `RLock`, read the map, `RUnlock`. -/
def getMissTrace : List LockAct := [.acqShared, .readStore, .rel]

/-- `Get`, stale paths (lines 86-103): under `RLock`, read the entry and then
`delete(tc.entries, filePath)` — a store mutation under the shared lock. -/
def getStaleDeleteTrace : List LockAct := [.acqShared, .readStore, .writeStore, .rel]

/-- `Get`, hit path (lines 105-108): under `RLock`, read the entry and write
`entry.AccessedAt` — the access-time touch under the shared lock. -/
def getHitTrace : List LockAct := [.acqShared, .readStore, .writeStore, .readStore, .rel]

/-- `Set` (lines 112-138): `Lock`, insert (and possibly evict), `Unlock`. -/
def setTrace : List LockAct := [.acqExcl, .readStore, .writeStore, .readStore, .writeStore, .rel]

/-- `Clear` (lines 186-190). -/
def clearTrace : List LockAct := [.acqExcl, .writeStore, .rel]

/-- One `cleanup` sweep tick (lines 171-182). -/
def sweepTrace : List LockAct := [.acqExcl, .readStore, .writeStore, .rel]

/-- Every store write in the trace happens while the exclusive lock is held. -/
def writesLocked : LockMode → List LockAct → Bool
  | _, [] => true
  | _, .acqShared :: tr => writesLocked .shared tr
  | _, .acqExcl :: tr => writesLocked .exclusive tr
  | _, .rel :: tr => writesLocked .unlocked tr
  | m, .readStore :: tr => writesLocked m tr
  | m, .writeStore :: tr => (m == .exclusive) && writesLocked m tr

/-! ## Theorems for the claims -/

/-- C8: the claim requires every structural mutation of the cache store and
every cache-hit access-time touch to be performed under a lock that excludes
concurrent readers.  The code violates it: `Get`'s hit path writes the access
time, and its stale paths delete map entries, while holding only the shared
read lock; `Set`, `Clear` and the sweep do mutate under the exclusive lock. -/
theorem cacheGet_mutates_under_shared_lock :
    writesLocked .unlocked getHitTrace = false ∧
    writesLocked .unlocked getStaleDeleteTrace = false ∧
    writesLocked .unlocked getMissTrace = true ∧
    writesLocked .unlocked setTrace = true ∧
    writesLocked .unlocked clearTrace = true ∧
    writesLocked .unlocked sweepTrace = true := by decide

def fontFSAll : String → Bool := fun _ => true

def firstSetup : FontCache × FpdfInst := setupFonts NewFontCache newFpdf fontFSAll

/-- C9 counterexample: the first `setupFonts` call registers the fonts into
its document and marks the process-global `FontCache` flag; a FRESH document
set up afterwards receives no font registration at all (and no default font),
refuting "every fresh instance still receives its own font registration". -/
theorem setupFonts_fresh_instance_unregistered :
    (firstSetup.2.registeredFonts = [("Tahoma", ""), ("Tahoma", "B")] ∧
     firstSetup.2.currentFont = some ("Tahoma", "", (10 : Rat)) ∧
     firstSetup.1.loaded = true) ∧
    (setupFonts firstSetup.1 newFpdf fontFSAll).2.registeredFonts = [] ∧
    (setupFonts firstSetup.1 newFpdf fontFSAll).2.currentFont = none := by decide

/-- C9 amended: the font-loaded marker lives in the process-global `FontCache`,
not in the render target: (a) once the marker is set, `setupFonts` is the
identity on any instance; (b) every call leaves the marker set; (c) hence a
second call — on the same or on a fresh instance — performs no loads at all;
(d) only a first-in-process call (marker clear) registers the two faces into
its instance and sets the default font. -/
theorem setupFonts_global_marker_amended (fc : FontCache) (pdf pdf2 : FpdfInst)
    (fe : String → Bool) :
    (fc.loaded = true → setupFonts fc pdf fe = (fc, pdf)) ∧
    (setupFonts fc pdf fe).1.loaded = true ∧
    setupFonts (setupFonts fc pdf fe).1 pdf2 fe = ((setupFonts fc pdf fe).1, pdf2) ∧
    (fc.loaded = false → fc.fonts = [] →
      fe "./fonts/tahoma.ttf" = true → fe "./fonts/tahomabd.TTF" = true →
      ("Tahoma", "") ∈ (setupFonts fc pdf fe).2.registeredFonts ∧
      ("Tahoma", "B") ∈ (setupFonts fc pdf fe).2.registeredFonts ∧
      (setupFonts fc pdf fe).2.currentFont = some ("Tahoma", "", (10 : Rat))) := by
  have ha : ∀ (fc' : FontCache) (pdf' : FpdfInst), fc'.loaded = true →
      setupFonts fc' pdf' fe = (fc', pdf') := by
    intro fc' pdf' h
    simp [setupFonts, FontCache.IsSystemLoaded, h]
  have hload : (setupFonts fc pdf fe).1.loaded = true := by
    by_cases h : fc.loaded
    · rw [ha fc pdf h]
      exact h
    · simp [setupFonts, FontCache.IsSystemLoaded, h, FontCache.MarkSystemLoaded]
  refine ⟨fun h => ha fc pdf h, hload, ha _ pdf2 hload, fun h hfonts h1 h2 => ?_⟩
  rcases fc with ⟨fonts, loaded⟩
  simp only at h hfonts
  subst h hfonts
  simp [setupFonts, FontCache.IsSystemLoaded, FontCache.IsLoaded,
    FontCache.MarkLoaded, FontCache.MarkSystemLoaded, h1, h2]

/-- C9 amended, witnessed at the concrete first-call scenario. -/
theorem setupFonts_global_marker_amended_witness :
    ("Tahoma", "") ∈ (setupFonts NewFontCache newFpdf fontFSAll).2.registeredFonts ∧
    setupFonts (setupFonts NewFontCache newFpdf fontFSAll).1 newFpdf fontFSAll =
      ((setupFonts NewFontCache newFpdf fontFSAll).1, newFpdf) :=
  ⟨((setupFonts_global_marker_amended NewFontCache newFpdf newFpdf fontFSAll).2.2.2
      rfl rfl rfl rfl).1,
   (setupFonts_global_marker_amended NewFontCache newFpdf newFpdf fontFSAll).2.2.1⟩

/-- C10: `Validate` is not read-only — for a barcode element with an empty
format, a successful call sets `BarcodeFormat` to `"Code128"`; for any
non-barcode element, or a barcode element whose format is already set, every
field is left unchanged. -/
theorem validate_barcode_frame_effect (e : PDFElement) :
    (e.etype = ElementTypeBarcode → e.barcodeFormat = "" → (e.Validate).2 = none →
      (e.Validate).1 = { e with barcodeFormat := "Code128" }) ∧
    ((e.etype ≠ ElementTypeBarcode ∨ e.barcodeFormat ≠ "") → (e.Validate).1 = e) := by
  constructor
  · intro ht hf hv
    unfold PDFElement.Validate at hv ⊢
    split_ifs at hv ⊢ <;> simp_all [ElementTypeQR, ElementTypeBarcode, ElementTypeImage]
  · intro h
    unfold PDFElement.Validate
    split_ifs <;> first
      | rfl
      | (rcases h with h | h <;> simp_all)

def elBarW : PDFElement :=
  { etype := "barcode", method := "Barcode", text := "", variableName := "",
    loopField := "", position := { x := 0, y := 0 }, size := { width := 10, height := 5 },
    style := { font := { family := "Tahoma", style := "", size := 10 },
               border := "", align := "L", rotateDegree := 0, rotateType := "",
               textColor := { r := 0, g := 0, b := 0, isSet := false },
               background := { r := 0, g := 0, b := 0, isSet := false }, imageSrc := "" },
    columns := [], qrContent := "", barcodeFormat := "", barcodeContent := "X" }

def elTextW : PDFElement := { elBarW with etype := "text", barcodeFormat := "Code128" }

/-- C10 witnessed: a valid barcode element with empty format gets the default
written; a text element is returned unchanged. -/
theorem validate_barcode_frame_effect_witness :
    (elBarW.Validate).1 = { elBarW with barcodeFormat := "Code128" } ∧
    (elTextW.Validate).1 = elTextW :=
  ⟨(validate_barcode_frame_effect elBarW).1 rfl rfl (by decide),
   (validate_barcode_frame_effect elTextW).2 (Or.inl (by decide))⟩

def headersC3 : List String := ["type", "method", "x", "y", "width", "height", "text"]

def rowGoodC3a : List String := ["text", "Cell", "10", "10", "50", "8", "Hello"]

/-- A data row with 3 fields against a 7-field header. -/
def rowBadC3 : List String := ["text", "Cell", "10"]

def rowGoodC3b : List String := ["text", "Cell", "10", "30", "50", "8", "World"]

/-- C3: the claim says a row whose field count differs from the header's is a
non-fatal row error (logged, skipped, parse continues).  In the code the
`csv.Reader` (default `FieldsPerRecord`) already fails the `Read` call with
`ErrFieldCount` for such a row, and `parseCSVFile` treats any read error as
fatal, so the whole parse errors; the in-loop skip branch is dead code.  The
same records without the short row parse to exactly the two good elements. -/
theorem parseCSVFile_mismatched_row_aborts :
    parseCSVFile [headersC3, rowGoodC3a, rowBadC3, rowGoodC3b] =
      .error "error reading CSV row: wrong number of fields" ∧
    (parseCSVFile [headersC3, rowGoodC3a, rowGoodC3b]).toOption.map List.length = some 2 := by
  constructor <;> rfl

def wrapIdC6 : Rat → String → Rat := fun y _ => y

def noFSC6 : String → Bool := fun _ => false

def itemsListC6 : List GoValue :=
  [GoValue.obj [("f", GoValue.str "A")], GoValue.obj [("f", GoValue.str "B")]]

def inputC6 : DataCtx := [("items", GoValue.arr itemsListC6)]

def elC6a : PDFElementOld :=
  { etype := "text", method := "Cell", text := "", variableName := "",
    x := 10, y := 10, width := 40, height := 5, font := "Tahoma", fontStyle := "",
    fontSize := 10, align := "L", rotateDegree := 0, border := "", colorR := 0,
    colorG := 0, colorB := 0, background := "", bgColorR := 0, bgColorG := 0,
    bgColorB := 0, imageSrc := "", rotateType := "", loopField := "items.f" }

def elC6b : PDFElementOld := { elC6a with x := 60 }

/-- The legacy `Cell`-mode loop rows: first item at the start y, each
subsequent `height + 2` lower; the returned final y is the start plus
`N * (height + 2)`. -/
theorem loopTextRows_cell_y (wrapY : Rat → String → Rat) (el : PDFElementOld)
    (arrayName fieldName : String) (input : DataCtx) (hm : el.method = "Cell") :
    ∀ (items : List GoValue) (y0 : Rat),
      ((loopTextRows wrapY el arrayName input fieldName items y0).1.map (fun ev => ev.y)) =
        (List.range items.length).map (fun i : Nat => y0 + (i : Rat) * (el.height + 2)) ∧
      (loopTextRows wrapY el arrayName input fieldName items y0).2 =
        y0 + items.length * (el.height + 2) := by
  intro items
  induction items with
  | nil => intro y0; simp [loopTextRows]
  | cons item rest ih =>
    intro y0
    have hmc : (el.method = "MultiCell") = False := by simp [hm]
    have h1 := (ih (y0 + el.height + 2)).1
    have h2 := (ih (y0 + el.height + 2)).2
    constructor
    · simp only [loopTextRows, hmc, if_false, List.map_cons, List.length_cons]
      rw [h1, List.range_succ_eq_map, List.map_cons, List.map_map]
      refine congrArg₂ _ (by norm_num) ?_
      refine List.map_congr_left fun i _ => ?_
      simp only [Function.comp_apply]
      push_cast
      ring
    · simp only [loopTextRows, hmc, if_false, List.length_cons]
      rw [h2]
      push_cast
      ring

/-- The legacy `processElement` on a text loop element whose array resolves:
the result is exactly the loop rows from the element's own declared y, and the
ledger update with the final y — for ANY incoming ledger. -/
theorem processElementOld_loop_text (wrapY : Rat → String → Rat)
    (fe : String → Bool) (el : PDFElementOld) (input : DataCtx) (ledger : Ledger)
    (arrayName fieldName : String) (items : List GoValue)
    (htype : el.etype = "text")
    (hsplit : splitStr el.loopField '.' = [arrayName, fieldName])
    (hloop : el.loopField ≠ "")
    (harr : dataGet input arrayName = some (GoValue.arr items)) :
    processElementOld wrapY fe el input ledger =
      ((loopTextRows wrapY el arrayName input fieldName items el.y).1,
        ledgerSet ledger arrayName
          (loopTextRows wrapY el arrayName input fieldName items el.y).2) := by
  unfold processElementOld
  simp [htype, hloop, hsplit, harr]

/-- C6 counterexample: two elements looping over the same `items` array in one
render.  After the first finishes, `24` is recorded for `"items"` in the
ledger, yet the second element's draws start at ITS declared y (`10`): the two
loop elements draw at the same y positions `10, 17`, not at a continuation
from `24`, refuting the claimed position-ledger continuation. -/
theorem loop_ledger_not_consulted_counterexample :
    (GeneratePDFOld wrapIdC6 noFSC6 [elC6a] inputC6).2 = [("items", (24 : Rat))] ∧
    ((GeneratePDFOld wrapIdC6 noFSC6 [elC6a, elC6b] inputC6).1.map (fun ev => ev.y)) =
      [10, 17, 10, 17] ∧
    (10 : Rat) ≠ 24 := by
  have hpa : ∀ ledger, processElementOld wrapIdC6 noFSC6 elC6a inputC6 ledger =
      ((loopTextRows wrapIdC6 elC6a "items" inputC6 "f" itemsListC6 elC6a.y).1,
        ledgerSet ledger "items"
          (loopTextRows wrapIdC6 elC6a "items" inputC6 "f" itemsListC6 elC6a.y).2) :=
    fun ledger => processElementOld_loop_text wrapIdC6 noFSC6 elC6a inputC6 ledger
      "items" "f" itemsListC6 rfl (by decide) (by decide) rfl
  have hpb : ∀ ledger, processElementOld wrapIdC6 noFSC6 elC6b inputC6 ledger =
      ((loopTextRows wrapIdC6 elC6b "items" inputC6 "f" itemsListC6 elC6b.y).1,
        ledgerSet ledger "items"
          (loopTextRows wrapIdC6 elC6b "items" inputC6 "f" itemsListC6 elC6b.y).2) :=
    fun ledger => processElementOld_loop_text wrapIdC6 noFSC6 elC6b inputC6 ledger
      "items" "f" itemsListC6 rfl (by decide) (by decide) rfl
  have hya := (loopTextRows_cell_y wrapIdC6 elC6a "items" "f" inputC6 rfl itemsListC6 elC6a.y).1
  have hyb := (loopTextRows_cell_y wrapIdC6 elC6b "items" "f" inputC6 rfl itemsListC6 elC6b.y).1
  have hfa := (loopTextRows_cell_y wrapIdC6 elC6a "items" "f" inputC6 rfl itemsListC6 elC6a.y).2
  have hskipa : (elC6a.etype = "" ∨ elC6a.method = "") = False := by
    simp [elC6a]
  have hskipb : (elC6b.etype = "" ∨ elC6b.method = "") = False := by
    simp [elC6b, elC6a]
  have hxa : (elC6a.x < 0 ∨ elC6a.y < 0) = False := by
    simp only [elC6a]
    norm_num
  have hxb : (elC6b.x < 0 ∨ elC6b.y < 0) = False := by
    simp only [elC6b, elC6a]
    norm_num
  have hwa : (elC6a.width ≤ 0 ∨ elC6a.height ≤ 0) = False := by
    simp only [elC6a]
    norm_num
  have hwb : (elC6b.width ≤ 0 ∨ elC6b.height ≤ 0) = False := by
    simp only [elC6b, elC6a]
    norm_num
  have hrun1 : GeneratePDFOld wrapIdC6 noFSC6 [elC6a] inputC6 =
      ((loopTextRows wrapIdC6 elC6a "items" inputC6 "f" itemsListC6 elC6a.y).1,
        ledgerSet [] "items"
          (loopTextRows wrapIdC6 elC6a "items" inputC6 "f" itemsListC6 elC6a.y).2) := by
    simp only [GeneratePDFOld, List.foldl, hskipa, hxa, hwa, if_false, hpa]
    simp
  have hrun2 : GeneratePDFOld wrapIdC6 noFSC6 [elC6a, elC6b] inputC6 =
      ((loopTextRows wrapIdC6 elC6a "items" inputC6 "f" itemsListC6 elC6a.y).1 ++
        (loopTextRows wrapIdC6 elC6b "items" inputC6 "f" itemsListC6 elC6b.y).1,
        ledgerSet (ledgerSet [] "items"
          (loopTextRows wrapIdC6 elC6a "items" inputC6 "f" itemsListC6 elC6a.y).2) "items"
          (loopTextRows wrapIdC6 elC6b "items" inputC6 "f" itemsListC6 elC6b.y).2) := by
    simp only [GeneratePDFOld, List.foldl, hskipa, hskipb, hxa, hxb, hwa, hwb, if_false,
      hpa, hpb]
    simp
  refine ⟨?_, ?_, by norm_num⟩
  · rw [hrun1, hfa]
    show ledgerSet [] "items" (elC6a.y + (itemsListC6.length : Rat) * (elC6a.height + 2)) = _
    simp only [ledgerSet, List.filter, List.append_nil, List.nil_append]
    refine congrArg₂ _ (congrArg _ ?_) rfl
    show elC6a.y + ((2 : Nat) : Rat) * (elC6a.height + 2) = 24
    simp only [elC6a]
    norm_num
  · rw [hrun2, List.map_append, hya, hyb]
    show (List.range itemsListC6.length).map (fun i : Nat => elC6a.y + (i : Rat) * (elC6a.height + 2)) ++
         (List.range itemsListC6.length).map (fun i : Nat => elC6b.y + (i : Rat) * (elC6b.height + 2)) = _
    have hlen : itemsListC6.length = 2 := rfl
    rw [hlen]
    simp only [List.range_succ, List.range_zero, List.map_append, List.map_cons,
      List.map_nil, List.nil_append, List.cons_append]
    simp only [elC6b, elC6a]
    norm_num

/-- C6 amended: after a single-line loop element finishes, the final advanced
y — the declared y plus `N * (height + 2)` — IS recorded against the array
name in the ledger; but the ledger is never consulted: the element's draws
start from the element's own declared y whatever the incoming ledger holds, so
a second element looping over the same array starts again at its own declared
y instead of continuing where the first left off. -/
theorem loop_ledger_write_only_amended (wrapY : Rat → String → Rat)
    (fe : String → Bool) (el : PDFElementOld) (input : DataCtx) (ledger : Ledger)
    (arrayName fieldName : String) (items : List GoValue)
    (htype : el.etype = "text")
    (hsplit : splitStr el.loopField '.' = [arrayName, fieldName])
    (hloop : el.loopField ≠ "")
    (harr : dataGet input arrayName = some (GoValue.arr items))
    (hm : el.method = "Cell") :
    (processElementOld wrapY fe el input ledger).1 =
      (loopTextRows wrapY el arrayName input fieldName items el.y).1 ∧
    ((processElementOld wrapY fe el input ledger).1.map (fun ev => ev.y)) =
      (List.range items.length).map (fun i : Nat => el.y + (i : Rat) * (el.height + 2)) ∧
    (processElementOld wrapY fe el input ledger).2 =
      ledgerSet ledger arrayName (el.y + items.length * (el.height + 2)) := by
  have hproc := processElementOld_loop_text wrapY fe el input ledger arrayName fieldName
    items htype hsplit hloop harr
  refine ⟨by rw [hproc], ?_, ?_⟩
  · rw [hproc]
    exact (loopTextRows_cell_y wrapY el arrayName fieldName input hm items el.y).1
  · rw [hproc]
    rw [(loopTextRows_cell_y wrapY el arrayName fieldName input hm items el.y).2]

/-- C6 amended, witnessed on a concrete loop element, data context and a
non-empty incoming ledger. -/
theorem loop_ledger_write_only_amended_witness :
    ((processElementOld wrapIdC6 noFSC6 elC6a inputC6 [("x", (5 : Rat))]).1.map
        (fun ev => ev.y)) =
      (List.range itemsListC6.length).map (fun i : Nat => elC6a.y + (i : Rat) * (elC6a.height + 2)) ∧
    (processElementOld wrapIdC6 noFSC6 elC6a inputC6 [("x", (5 : Rat))]).2 =
      ledgerSet [("x", (5 : Rat))] "items" (elC6a.y + itemsListC6.length * (elC6a.height + 2)) :=
  ⟨(loop_ledger_write_only_amended wrapIdC6 noFSC6 elC6a inputC6 [("x", (5 : Rat))]
      "items" "f" itemsListC6 rfl (by decide) (by decide) rfl rfl).2.1,
   (loop_ledger_write_only_amended wrapIdC6 noFSC6 elC6a inputC6 [("x", (5 : Rat))]
      "items" "f" itemsListC6 rfl (by decide) (by decide) rfl rfl).2.2⟩

def styleC5 : Style :=
  { font := { family := "Tahoma", style := "", size := 10 },
    border := "", align := "L", rotateDegree := 0, rotateType := "",
    textColor := { r := 0, g := 0, b := 0, isSet := false },
    background := { r := 0, g := 0, b := 0, isSet := false }, imageSrc := "" }

/-- A single-line (`Cell`) text loop element over `items.description`. -/
def loopElemC5 : PDFElement :=
  { etype := "text", method := "Cell", text := "\x7b\x7bitems.description\x7d\x7d",
    variableName := "", loopField := "items.description",
    position := { x := 10, y := 20 }, size := { width := 50, height := 5 },
    style := styleC5, columns := [],
    qrContent := "", barcodeFormat := "Code128", barcodeContent := "" }

def itemsC5 : GoValue := GoValue.arr [GoValue.obj [("description", GoValue.str "A")]]

def dataC5 : DataCtx := [("items", itemsC5)]

theorem validate_loopElemC5 : loopElemC5.Validate = (loopElemC5, none) := by
  unfold PDFElement.Validate
  simp [loopElemC5, styleC5, ElementTypeQR, ElementTypeBarcode, ElementTypeImage]
  norm_num

theorem dataGet_cons_items (data : DataCtx) (v : GoValue) :
    dataGet (("items.description", v) :: data) "items" = dataGet data "items" := by
  simp [dataGet, List.find?]

/-- Any data context binding `items` to the one-item array makes
`processElement` on the loop element exhaust EVERY fuel: the clone keeps
`loopField`, so the per-item `processElement` call re-enters
`processLoopElement` on the same array, forever. -/
theorem processElemC5_aux : ∀ (fuel : Nat) (data : DataCtx),
    dataGet data "items" = some itemsC5 →
    processElementFuel (fun _ => true) fuel loopElemC5 data = none := by
  intro fuel
  induction fuel with
  | zero =>
    intro data _
    simp [processElementFuel]
  | succ n ih =>
    intro data h
    rw [processElementFuel, validate_loopElemC5]
    have hl : loopElemC5.IsLoopElement = true := by decide
    simp only [hl, if_true]
    rw [processLoopElementFuel]
    have hsplit : splitStr loopElemC5.loopField '.' = ["items", "description"] := by decide
    simp only [hsplit, List.length_cons, List.length_nil, List.getD]
    norm_num
    rw [h]
    simp only [itemsC5]
    rw [loopItemsFuel]
    have hcopy : ({ loopElemC5 with
        position := { loopElemC5.position with y := loopElemC5.position.y } }) = loopElemC5 := rfl
    rw [hcopy]
    rw [show loopElemC5.loopField = "items.description" from rfl]
    rw [ih (("items.description",
          GoValue.str (GetArrayFieldValue (GoValue.obj [("description", GoValue.str "A")])
            "description")) :: data)
        (by rw [dataGet_cons_items]; exact h)]

/-- C5: the claim says a loop element bound to an N-item array produces
exactly N drawn copies with y advancing by `height + 2`.  On the code,
`processLoopElement` clones the element WITH its `loopField` and feeds the
clone back to `processElement`, which re-dispatches to `processLoopElement`
over the same array: for a non-empty array the recursion never terminates and
nothing is ever drawn — no call-depth fuel suffices. -/
theorem processLoopElement_diverges :
    ∀ fuel : Nat, processElementFuel (fun _ => true) fuel loopElemC5 dataC5 = none :=
  fun fuel => processElemC5_aux fuel dataC5 rfl

theorem isPrefOf_trans : ∀ (a b c : List Char), isPrefOf a b = true → isPrefOf b c = true →
    isPrefOf a c = true
  | [], _, _, _, _ => rfl
  | _ :: _, b, c, hab, hbc => by
    cases b with
    | nil => simp [isPrefOf] at hab
    | cons y bs =>
      cases c with
      | nil => simp [isPrefOf] at hbc
      | cons z cs =>
        simp only [isPrefOf] at hab hbc ⊢
        rename_i x as
        by_cases hxy : x = y
        · subst hxy
          simp only [if_pos rfl] at hab
          by_cases hyz : x = z
          · subst hyz
            simp only [if_pos rfl] at hbc ⊢
            exact isPrefOf_trans as bs cs hab hbc
          · simp [hyz] at hbc
        · simp [hxy] at hab

/-- If `pre` (a prefix of the pattern) occurs nowhere in `s`, `replaceAllL`
leaves `s` unchanged. -/
theorem replaceAllL_no_sub (pat rep pre : List Char) :
    ∀ s : List Char, isPrefOf pre pat = true → hasSub pre s = false →
      replaceAllL pat rep s = s := by
  intro s hpre
  induction s with
  | nil =>
    intro _
    simp [replaceAllL]
  | cons c rest ih =>
    intro hs
    simp only [hasSub, Bool.or_eq_false_iff] at hs
    simp only [replaceAllL]
    rw [if_neg]
    · rw [ih hs.2]
    · rintro ⟨-, hp⟩
      rw [isPrefOf_trans pre pat (c :: rest) hpre hp] at hs
      exact absurd hs.1 (by simp)

theorem ph_startsWith (k : String) :
    isPrefOf "\x7b\x7b".data (ph k).data = true := by
  have h : (ph k).data = '\x7b' :: '\x7b' :: (k.data ++ "\x7d\x7d".data) := by
    simp [ph, String.data_append]
  rw [h]
  rfl

/-- C4, first half as a lemma: a text without `\x7b\x7b` anywhere is a fixed
point of `ReplaceVariables` for every data context. -/
theorem ReplaceVariables_id (text : String) (data : DataCtx)
    (h : containsSub text "\x7b\x7b" = false) : ReplaceVariables text data = text := by
  have hstep : ∀ kv : String × GoValue, replaceAll text (ph kv.1) (goFmt kv.2) = text := by
    intro kv
    unfold replaceAll
    rw [replaceAllL_no_sub (ph kv.1).data (goFmt kv.2).data "\x7b\x7b".data text.data
      (ph_startsWith kv.1) h]
  unfold ReplaceVariables
  induction data with
  | nil => rfl
  | cons kv rest ih =>
    rw [List.foldl_cons, hstep kv]
    exact ih

/-- C4: variable resolution degrades and never fails — (1) a text containing
no placeholder opener anywhere is returned unchanged by `ReplaceVariables`,
and (2) a non-bracketed single binding whose identifier is absent from the
data both as an exact key and as a case-insensitive match (after stripping
trailing colons from keys) returns the text verbatim, literal placeholders
included.  Both resolvers are total functions: no error value exists. -/
theorem variable_resolution_degrades (text variableName : String) (data : DataCtx) :
    (containsSub text "\x7b\x7b" = false → ReplaceVariables text data = text) ∧
    ((startsWithStr variableName "[" = false ∨ endsWithStr variableName "]" = false) →
      dataGet data variableName = none →
      (∀ kv ∈ data, equalFold (trimRightStr kv.1 ":") variableName = false) →
      ReplaceVariablesInArray text variableName data = text) := by
  constructor
  · exact ReplaceVariables_id text data
  · intro hbr hget hfold
    unfold ReplaceVariablesInArray
    have hcond : (!(startsWithStr variableName "[") || !(endsWithStr variableName "]")) = true := by
      rcases hbr with h | h <;> simp [h]
    have hfind : data.find? (fun kv => equalFold (trimRightStr kv.1 ":") variableName) = none :=
      List.find?_eq_none.mpr (fun kv hkv => by simp [hfold kv hkv])
    simp only [hcond, if_true, hget, hfind]

def dataW4 : DataCtx := [("Name:", GoValue.str "Bob")]

/-- C4 witnessed: a placeholder-free text survives resolution, and an absent
identifier leaves its placeholder verbatim. -/
theorem variable_resolution_degrades_witness :
    ReplaceVariables "hello" dataW4 = "hello" ∧
    ReplaceVariablesInArray "Total: \x7b\x7bx\x7d\x7d" "x" dataW4 = "Total: \x7b\x7bx\x7d\x7d" :=
  ⟨(variable_resolution_degrades "hello" "x" dataW4).1 (by decide),
   (variable_resolution_degrades "Total: \x7b\x7bx\x7d\x7d" "x" dataW4).2
     (Or.inl (by decide)) rfl (by decide)⟩

/-- The claim's validity predicate: non-negative position, positive size,
non-empty type, and the type-specific content requirements of qr, barcode and
image elements. -/
def elemValid (e : PDFElement) : Bool :=
  decide (0 ≤ e.position.x) && decide (0 ≤ e.position.y) &&
  decide (0 < e.size.width) && decide (0 < e.size.height) &&
  (e.etype != "") &&
  (if e.etype = ElementTypeQR then e.qrContent != "" || e.variableName != ""
   else if e.etype = ElementTypeBarcode then e.barcodeContent != "" || e.variableName != ""
   else if e.etype = ElementTypeImage then e.style.imageSrc != "" || e.variableName != ""
   else true)

/-- A successful `Validate` leaves a validity-satisfying element. -/
theorem validate_ok_valid (e : PDFElement) (h : (e.Validate).2 = none) :
    elemValid ((e.Validate).1) = true := by
  unfold PDFElement.Validate at h ⊢
  split_ifs at h ⊢ with h1 h2 h3 h4 h5 h6 h7 h8 h9 h10 <;>
    simp_all [elemValid, not_or, not_lt, not_le, not_and_or] <;> tauto

/-- An element with zero width or negative x never validates. -/
theorem invalid_validate (e : PDFElement)
    (h : e.size.width = 0 ∨ e.position.x < 0) : ((e.Validate).2).isSome = true := by
  unfold PDFElement.Validate
  split_ifs with h1 h2 h3 <;> first
    | (rcases h with h | h
       · exact absurd (Or.inl (le_of_eq h)) (by assumption)
       · exact absurd (Or.inl h) (by assumption))
    | simp

theorem parseCSVRows_ok_valid (headers : List String) :
    ∀ (rows : List (List String)) (acc es : List PDFElement),
      (∀ e ∈ acc, elemValid e = true) →
      parseCSVRows headers rows acc = .ok es → ∀ e ∈ es, elemValid e = true := by
  intro rows
  induction rows with
  | nil =>
    intro acc es hacc hok
    obtain rfl : acc = es := by simpa [parseCSVRows] using hok
    exact hacc
  | cons record rest ih =>
    intro acc es hacc hok
    by_cases hlen : record.length = headers.length
    · have hlen' : (record.length ≠ headers.length) = False := by simp [hlen]
      simp only [parseCSVRows, hlen', if_false] at hok
      rcases hv : (createElementFromRow headers record).Validate with ⟨e', err⟩
      rw [hv] at hok
      cases err with
      | some m => exact ih acc es hacc hok
      | none =>
        refine ih (acc ++ [e']) es ?_ hok
        intro e he
        rcases List.mem_append.mp he with he | he
        · exact hacc e he
        · obtain rfl : e = e' := by simpa using he
          have h2 : ((createElementFromRow headers record).Validate).2 = none := by rw [hv]
          have h1 : ((createElementFromRow headers record).Validate).1 = e := by rw [hv]
          have := validate_ok_valid _ h2
          rwa [h1] at this
    · simp [parseCSVRows, hlen] at hok

theorem parseCSVRows_skip (headers : List String) (r : List String)
    (hr : r.length = headers.length)
    (hinv : (((createElementFromRow headers r).Validate).2).isSome = true) :
    ∀ (rows1 rows2 : List (List String)) (acc : List PDFElement),
      parseCSVRows headers (rows1 ++ r :: rows2) acc =
        parseCSVRows headers (rows1 ++ rows2) acc := by
  intro rows1
  induction rows1 with
  | nil =>
    intro rows2 acc
    simp only [List.nil_append]
    have hlen' : (r.length ≠ headers.length) = False := by simp [hr]
    conv_lhs => rw [parseCSVRows]
    simp only [hlen', if_false]
    rcases hv : (createElementFromRow headers r).Validate with ⟨e', err⟩
    cases err with
    | some m => rfl
    | none =>
      rw [hv] at hinv
      simp at hinv
  | cons row rows1' ih =>
    intro rows2 acc
    simp only [List.cons_append]
    conv_lhs => rw [parseCSVRows]
    conv_rhs => rw [parseCSVRows]
    by_cases hlen : row.length = headers.length
    · have hlen' : (row.length ≠ headers.length) = False := by simp [hlen]
      simp only [hlen', if_false]
      rcases hv : (createElementFromRow headers row).Validate with ⟨e', err⟩
      cases err with
      | some m => exact ih rows2 acc
      | none => exact ih rows2 (acc ++ [e'])
    · have hlen' : (row.length ≠ headers.length) = True := by simp [hlen]
      simp only [hlen', if_true]

/-- C7: (1) every element of a successfully parsed sequence satisfies the
validity predicate; (2) a row whose element has zero width or negative x is
excluded by validation while the remaining rows parse exactly as they would
without it. -/
theorem parsed_elements_valid :
    (∀ (records : List (List String)) (es : List PDFElement),
      parseCSVFile records = .ok es → ∀ e ∈ es, elemValid e = true) ∧
    (∀ (headers : List String) (rows1 rows2 : List (List String)) (r : List String),
      r.length = headers.length →
      ((createElementFromRow headers r).size.width = 0 ∨
        (createElementFromRow headers r).position.x < 0) →
      parseCSVFile (headers :: (rows1 ++ r :: rows2)) =
        parseCSVFile (headers :: (rows1 ++ rows2))) := by
  constructor
  · intro records es hok
    cases records with
    | nil => simp [parseCSVFile] at hok
    | cons headers rows =>
      exact parseCSVRows_ok_valid headers rows [] es (by simp) hok
  · intro headers rows1 rows2 r hr hinv
    simp only [parseCSVFile]
    exact parseCSVRows_skip headers r hr (invalid_validate _ hinv) rows1 rows2 []

def headersW7 : List String := ["method", "x", "y", "width", "height", "text"]

def rowGoodW7 : List String := ["Cell", "1", "2", "3", "4", "hi"]

def rowZeroWidthW7 : List String := ["Cell", "5", "6", "0", "4", "bad"]

def elW7 : PDFElement :=
  { etype := "text", method := "Cell", text := "hi", variableName := "", loopField := "",
    position := { x := 1, y := 2 }, size := { width := 3, height := 4 },
    style := { font := { family := "Tahoma", style := "", size := 10 },
               border := "", align := "L", rotateDegree := 0, rotateType := "",
               textColor := { r := 0, g := 0, b := 0, isSet := false },
               background := { r := 0, g := 0, b := 0, isSet := false }, imageSrc := "" },
    columns := [], qrContent := "", barcodeFormat := "Code128", barcodeContent := "" }

/-- C7 witnessed: the one parsed element of a concrete template is valid, and
inserting a zero-width row leaves the parse result unchanged. -/
theorem parsed_elements_valid_witness :
    elemValid elW7 = true ∧
    parseCSVFile [headersW7, rowZeroWidthW7, rowGoodW7] =
      parseCSVFile [headersW7, rowGoodW7] :=
  ⟨parsed_elements_valid.1 [headersW7, rowGoodW7] [elW7] rfl elW7 (by simp),
   parsed_elements_valid.2 headersW7 [] [rowGoodW7] rowZeroWidthW7 (by decide)
     (Or.inl (by decide))⟩

/-- Well-formedness of the entries list as a model of a Go map whose keys all
survived an `os.Stat`: keys are distinct and non-empty (stat of `""` fails, so
`Set` never inserts the empty key). -/
def entriesWF (l : List (String × CacheEntry)) : Prop :=
  (l.map (·.1)).Nodup ∧ ∀ kv ∈ l, kv.1 ≠ ""

theorem scanOldest_spec : ∀ (l : List (String × CacheEntry)) (acc : String × Int),
    acc.1 ≠ "" → (∀ kv ∈ l, kv.1 ≠ "") →
    (scanOldest l acc).1 ≠ "" ∧
    (scanOldest l acc).2 ≤ acc.2 ∧
    (∀ kv ∈ l, (scanOldest l acc).2 ≤ kv.2.accessedAt) ∧
    (scanOldest l acc = acc ∨
      ∃ e, ((scanOldest l acc).1, e) ∈ l ∧ e.accessedAt = (scanOldest l acc).2) := by
  intro l
  induction l with
  | nil =>
    intro acc ha _
    exact ⟨ha, le_refl _, by simp, Or.inl rfl⟩
  | cons kv rest ih =>
    intro acc ha hk
    have hkv : kv.1 ≠ "" := hk kv (by simp)
    have hkrest : ∀ x ∈ rest, x.1 ≠ "" := fun x hx => hk x (by simp [hx])
    simp only [scanOldest]
    by_cases hc : acc.1 = "" ∨ kv.2.accessedAt < acc.2
    · rw [if_pos hc]
      have hlt : kv.2.accessedAt ≤ acc.2 := by
        rcases hc with hc | hc
        · exact absurd hc ha
        · exact le_of_lt hc
      obtain ⟨r1, r2, r3, r4⟩ := ih (kv.1, kv.2.accessedAt) hkv hkrest
      refine ⟨r1, le_trans r2 hlt, ?_, ?_⟩
      · intro x hx
        rcases List.mem_cons.mp hx with rfl | hx
        · exact r2
        · exact r3 x hx
      · rcases r4 with r4 | ⟨e, he, hee⟩
        · refine Or.inr ⟨kv.2, ?_, ?_⟩
          · rw [r4]
            simp
          · rw [r4]
        · exact Or.inr ⟨e, List.mem_cons_of_mem _ he, hee⟩
    · rw [if_neg hc]
      push_neg at hc
      obtain ⟨r1, r2, r3, r4⟩ := ih acc ha hkrest
      refine ⟨r1, r2, ?_, ?_⟩
      · intro x hx
        rcases List.mem_cons.mp hx with rfl | hx
        · exact le_trans r2 hc.2
        · exact r3 x hx
      · rcases r4 with r4 | ⟨e, he, hee⟩
        · exact Or.inl r4
        · exact Or.inr ⟨e, List.mem_cons_of_mem _ he, hee⟩

/-- `evictOldest` on a non-empty, well-keyed store removes exactly the key the
scan found, and that key's entry has the oldest (minimal) access time. -/
theorem evictOldest_spec (l : List (String × CacheEntry)) (m : Nat) (t : Int)
    (hne : l ≠ []) (hk : ∀ kv ∈ l, kv.1 ≠ "") :
    ∃ e, ((scanOldest l ("", 0)).1, e) ∈ l ∧
      (∀ kv ∈ l, e.accessedAt ≤ kv.2.accessedAt) ∧
      TemplateCache.evictOldest ⟨l, m, t⟩ =
        ⟨eraseEntry l (scanOldest l ("", 0)).1, m, t⟩ := by
  cases l with
  | nil => exact absurd rfl hne
  | cons kv rest =>
    have h0 : scanOldest (kv :: rest) ("", 0) = scanOldest rest (kv.1, kv.2.accessedAt) := by
      simp [scanOldest]
    have hkv : kv.1 ≠ "" := hk kv (by simp)
    have hkrest : ∀ x ∈ rest, x.1 ≠ "" := fun x hx => hk x (by simp [hx])
    obtain ⟨r1, r2, r3, r4⟩ := scanOldest_spec rest (kv.1, kv.2.accessedAt) hkv hkrest
    have hkey : (scanOldest (kv :: rest) ("", 0)).1 ≠ "" := by
      rw [h0]
      exact r1
    have hmem : ∃ e, ((scanOldest (kv :: rest) ("", 0)).1, e) ∈ kv :: rest ∧
        e.accessedAt = (scanOldest (kv :: rest) ("", 0)).2 := by
      rw [h0]
      rcases r4 with r4 | ⟨e, he, hee⟩
      · refine ⟨kv.2, ?_, ?_⟩
        · rw [r4]
          simp
        · rw [r4]
      · exact ⟨e, List.mem_cons_of_mem _ he, hee⟩
    obtain ⟨e, hemem, heacc⟩ := hmem
    refine ⟨e, hemem, ?_, ?_⟩
    · intro x hx
      rw [heacc, h0]
      rcases List.mem_cons.mp hx with rfl | hx
      · exact r2
      · exact r3 x hx
    · unfold TemplateCache.evictOldest
      rw [if_pos hkey]

theorem eraseEntry_of_not_mem (l : List (String × CacheEntry)) (k : String)
    (h : k ∉ l.map (·.1)) : eraseEntry l k = l := by
  induction l with
  | nil => rfl
  | cons kv rest ih =>
    simp only [List.map_cons, List.mem_cons, not_or] at h
    simp only [eraseEntry, List.filter]
    have hne2 : (kv.1 != k) = true := by
      simp only [bne_iff_ne, ne_eq]
      exact fun hh => h.1 hh.symm
    rw [hne2]
    have := ih h.2
    simp only [eraseEntry] at this
    rw [this]

theorem eraseEntry_length (l : List (String × CacheEntry)) (k : String)
    (hnd : (l.map (·.1)).Nodup) (e : CacheEntry) (hmem : (k, e) ∈ l) :
    (eraseEntry l k).length + 1 = l.length := by
  induction l with
  | nil => simp at hmem
  | cons kv rest ih =>
    simp only [List.map_cons, List.nodup_cons] at hnd
    by_cases hkv : kv.1 = k
    · have h1 : (kv.1 != k) = false := by simp [hkv]
      have h2 : eraseEntry rest k = rest := by
        refine eraseEntry_of_not_mem rest k ?_
        rw [← hkv]
        exact hnd.1
      simp only [eraseEntry, List.filter, h1]
      simp only [eraseEntry] at h2
      rw [h2]
      simp
    · have h1 : (kv.1 != k) = true := by simp [hkv]
      have hmem' : (k, e) ∈ rest := by
        rcases List.mem_cons.mp hmem with h | h
        · exact absurd (congrArg Prod.fst h.symm) hkv
        · exact h
      simp only [eraseEntry, List.filter, h1]
      have := ih hnd.2 hmem'
      simp only [eraseEntry] at this
      simp only [List.length_cons, ← this]

theorem eraseEntry_sublist (l : List (String × CacheEntry)) (k : String) :
    List.Sublist (eraseEntry l k) l := List.filter_sublist l

theorem find?_none_key (l : List (String × CacheEntry)) (k : String)
    (h : l.find? (fun kv => kv.1 == k) = none) : k ∉ l.map (·.1) := by
  intro hmem
  rcases List.mem_map.mp hmem with ⟨kv, hkv, hk1⟩
  have := List.find?_eq_none.mp h kv hkv
  simp [hk1] at this

/-- One `Set` preserves the store's well-formedness and the capacity bound
(given that stat of the empty path fails). -/
theorem Set_step (tc : TemplateCache) (fs : FS) (now : Int) (path : String)
    (es : List PDFElement) (hfs0 : fs "" = none)
    (hwf : entriesWF tc.entries) (hlen : tc.entries.length ≤ tc.maxSize) :
    entriesWF (tc.Set fs now path es).entries ∧
    (tc.Set fs now path es).entries.length ≤ tc.maxSize ∧
    (tc.Set fs now path es).maxSize = tc.maxSize ∧
    (tc.Set fs now path es).ttl = tc.ttl := by
  rcases hstat : fs path with _ | fi
  · unfold TemplateCache.Set
    rw [hstat]
    exact ⟨hwf, hlen, rfl, rfl⟩
  · have hpath : path ≠ "" := by
      intro hp
      rw [hp, hfs0] at hstat
      exact Option.noConfusion hstat
    unfold TemplateCache.Set
    rw [hstat]
    simp only
    set newEntry : CacheEntry :=
      { elements := es, hash := calculateHash es, createdAt := now,
        accessedAt := now, fileModTime := fi.modTime } with hentry
    by_cases hfind : (tc.entries.find? (fun kv => kv.1 == path)).isSome
    · have hkeys : (insertEntry tc.entries path newEntry).map (·.1) =
          tc.entries.map (·.1) := by
        simp only [insertEntry, hfind, if_true, List.map_map]
        refine List.map_congr_left fun kv _ => ?_
        simp only [Function.comp_apply]
        split <;> rfl
      have hlen1 : (insertEntry tc.entries path newEntry).length = tc.entries.length := by
        have h := congrArg List.length hkeys
        simpa using h
      have hnot : ¬ (insertEntry tc.entries path newEntry).length > tc.maxSize := by
        rw [hlen1]
        omega
      rw [if_neg hnot]
      refine ⟨⟨?_, ?_⟩, by rw [hlen1]; exact hlen, rfl, rfl⟩
      · rw [hkeys]
        exact hwf.1
      · intro kv hkv
        simp only [insertEntry, hfind, if_true] at hkv
        rcases List.mem_map.mp hkv with ⟨kv0, hkv0, hfkv⟩
        subst hfkv
        by_cases hh : kv0.1 == path <;> simpa [hh] using hwf.2 kv0 hkv0
    · have hfind2 : tc.entries.find? (fun kv => kv.1 == path) = none :=
        Option.not_isSome_iff_eq_none.mp hfind
      have hins : insertEntry tc.entries path newEntry =
          tc.entries ++ [(path, newEntry)] := by
        simp [insertEntry, hfind2]
      rw [hins]
      have hnotmem : path ∉ tc.entries.map (·.1) := find?_none_key _ _ hfind2
      have hwf1 : entriesWF (tc.entries ++ [(path, newEntry)]) := by
        constructor
        · rw [List.map_append]
          simp only [List.map_cons, List.map_nil]
          rw [List.nodup_append]
          refine ⟨hwf.1, List.nodup_singleton _, ?_⟩
          intro a ha hmem2
          have hap : a = path := by simpa using hmem2
          subst hap
          exact hnotmem ha
        · intro kv hkv
          rcases List.mem_append.mp hkv with h | h
          · exact hwf.2 kv h
          · obtain rfl : kv = (path, newEntry) := by simpa using h
            exact hpath
      by_cases hover : (tc.entries ++ [(path, newEntry)]).length > tc.maxSize
      · simp only [hover, if_true]
        have hne : tc.entries ++ [(path, newEntry)] ≠ [] := by simp
        obtain ⟨e, hemem, hmin, heq⟩ :=
          evictOldest_spec (tc.entries ++ [(path, newEntry)]) tc.maxSize tc.ttl hne hwf1.2
        rw [heq]
        simp only
        refine ⟨⟨?_, ?_⟩, ?_, by trivial, by trivial⟩
        · exact ((eraseEntry_sublist _ _).map (·.1)).nodup hwf1.1
        · intro kv hkv
          exact hwf1.2 kv ((eraseEntry_sublist _ _).mem hkv)
        · have hlene := eraseEntry_length _ _ hwf1.1 e hemem
          have hlen2 : (tc.entries ++ [(path, newEntry)]).length =
              tc.entries.length + 1 := by simp
          omega
      · simp only [hover, if_false]
        refine ⟨hwf1, ?_, by trivial, by trivial⟩
        have hlen2 : (tc.entries ++ [(path, newEntry)]).length =
            tc.entries.length + 1 := by simp
        omega

/-- One `Set` operation by the cache client. -/
structure SetOp where
  fs : FS
  now : Int
  path : String
  elements : List PDFElement

def runSets (tc : TemplateCache) (ops : List SetOp) : TemplateCache :=
  ops.foldl (fun tc op => tc.Set op.fs op.now op.path op.elements) tc

def emptyCache (maxSize : Nat) (ttl : Int) : TemplateCache :=
  { entries := [], maxSize := maxSize, ttl := ttl }

theorem runSets_invariant (ops : List SetOp) :
    ∀ tc : TemplateCache,
      (∀ op ∈ ops, op.fs "" = none) →
      entriesWF tc.entries → tc.entries.length ≤ tc.maxSize →
      entriesWF (runSets tc ops).entries ∧
      (runSets tc ops).entries.length ≤ (runSets tc ops).maxSize ∧
      (runSets tc ops).maxSize = tc.maxSize := by
  induction ops with
  | nil =>
    intro tc _ hwf hlen
    exact ⟨hwf, hlen, rfl⟩
  | cons op rest ih =>
    intro tc hops hwf hlen
    have hstep := Set_step tc op.fs op.now op.path op.elements
      (hops op (by simp)) hwf hlen
    have hrest := ih (tc.Set op.fs op.now op.path op.elements)
      (fun o ho => hops o (by simp [ho])) hstep.1 (by rw [hstep.2.2.1]; exact hstep.2.1)
    simp only [runSets, List.foldl_cons] at hrest ⊢
    exact ⟨hrest.1, hrest.2.1, by rw [hrest.2.2, hstep.2.2.1]⟩

/-- C2: (1) starting from an empty cache, the entry count after every sequence
of `Set` operations never exceeds the configured capacity (the environment
fact used: `os.Stat("")` fails, so `Set` never caches the empty path, whose
presence would break the scan's `""` sentinel); (2) whenever the store
overflows, `evictOldest` removes exactly an entry whose last-access timestamp
is minimal — LRU by access time, not insertion order. -/
theorem templateCache_eviction_lru_bound :
    (∀ (maxSize : Nat) (ttl : Int) (ops : List SetOp),
      (∀ op ∈ ops, op.fs "" = none) →
      (runSets (emptyCache maxSize ttl) ops).entries.length ≤ maxSize) ∧
    (∀ (l : List (String × CacheEntry)) (m : Nat) (t : Int),
      l ≠ [] → (∀ kv ∈ l, kv.1 ≠ "") →
      ∃ e, ((scanOldest l ("", 0)).1, e) ∈ l ∧
        (∀ kv ∈ l, e.accessedAt ≤ kv.2.accessedAt) ∧
        TemplateCache.evictOldest ⟨l, m, t⟩ =
          ⟨eraseEntry l (scanOldest l ("", 0)).1, m, t⟩) := by
  constructor
  · intro maxSize ttl ops hops
    have h := runSets_invariant ops (emptyCache maxSize ttl) hops
      ⟨by simp [emptyCache], by simp [emptyCache]⟩ (by simp [emptyCache])
    have h1 := h.2.1
    rw [h.2.2] at h1
    exact h1
  · exact evictOldest_spec

def entryW2a : CacheEntry :=
  { elements := [], hash := "", createdAt := 0, accessedAt := 7, fileModTime := 0 }

def entryW2b : CacheEntry :=
  { elements := [], hash := "", createdAt := 1, accessedAt := 3, fileModTime := 0 }

def lW2 : List (String × CacheEntry) := [("a", entryW2a), ("b", entryW2b)]

def opsW2 : List SetOp :=
  [{ fs := fun p => if p = "a" then some { modTime := 1, records := [] } else none,
     now := 1, path := "a", elements := [] },
   { fs := fun p => if p = "b" then some { modTime := 2, records := [] } else none,
     now := 2, path := "b", elements := [] },
   { fs := fun p => if p = "c" then some { modTime := 3, records := [] } else none,
     now := 3, path := "c", elements := [] }]

/-- C2 witnessed: three distinct inserts into a capacity-2 cache stay within
bound, and on a concrete two-entry store the eviction scan picks the entry
with the older access time. -/
theorem templateCache_eviction_lru_bound_witness :
    (runSets (emptyCache 2 1000) opsW2).entries.length ≤ 2 ∧
    (∃ e, ((scanOldest lW2 ("", 0)).1, e) ∈ lW2 ∧
      (∀ kv ∈ lW2, e.accessedAt ≤ kv.2.accessedAt) ∧
      TemplateCache.evictOldest ⟨lW2, 2, 1000⟩ =
        ⟨eraseEntry lW2 (scanOldest lW2 ("", 0)).1, 2, 1000⟩) :=
  ⟨templateCache_eviction_lru_bound.1 2 1000 opsW2 (by simp [opsW2]),
   templateCache_eviction_lru_bound.2 lW2 2 1000 (by simp [lW2]) (by decide)⟩

theorem lookupEntry_mapReplace (k : String) (v : CacheEntry) :
    ∀ l : List (String × CacheEntry), (l.find? (fun kv => kv.1 == k)).isSome →
      lookupEntry (l.map (fun kv => if kv.1 == k then (kv.1, v) else kv)) k = some v := by
  intro l
  induction l with
  | nil => intro h; simp at h
  | cons kv rest ih =>
    intro h
    by_cases hh : kv.1 == k
    · simp [lookupEntry, List.find?, hh]
    · have h2 : (rest.find? (fun kv => kv.1 == k)).isSome := by
        simpa [List.find?, hh] using h
      simpa [lookupEntry, List.find?, hh] using ih h2

theorem lookupEntry_append_single (k : String) (v : CacheEntry) :
    ∀ l : List (String × CacheEntry), l.find? (fun kv => kv.1 == k) = none →
      lookupEntry (l ++ [(k, v)]) k = some v := by
  intro l
  induction l with
  | nil => simp [lookupEntry, List.find?]
  | cons kv rest ih =>
    intro h
    by_cases hh : kv.1 == k
    · simp [List.find?, hh] at h
    · have h2 : rest.find? (fun kv => kv.1 == k) = none := by
        simpa [List.find?, hh] using h
      simpa [lookupEntry, List.find?, hh] using ih h2

theorem lookupEntry_insertEntry (l : List (String × CacheEntry)) (k : String)
    (v : CacheEntry) : lookupEntry (insertEntry l k v) k = some v := by
  unfold insertEntry
  by_cases h : (l.find? (fun kv => kv.1 == k)).isSome
  · rw [if_pos h]
    exact lookupEntry_mapReplace k v l h
  · rw [if_neg h]
    exact lookupEntry_append_single k v l (Option.not_isSome_iff_eq_none.mp h)

theorem lookupEntry_eraseEntry (l : List (String × CacheEntry)) (k k' : String) :
    lookupEntry (eraseEntry l k') k = if k = k' then none else lookupEntry l k := by
  induction l with
  | nil => simp [eraseEntry, lookupEntry]
  | cons kv rest ih =>
    by_cases h1 : kv.1 = k'
    · have hb : (kv.1 != k') = false := by simp [h1]
      have hstep : eraseEntry (kv :: rest) k' = eraseEntry rest k' := by
        simp [eraseEntry, List.filter, hb]
      rw [hstep, ih]
      by_cases hk : k = k'
      · simp [hk]
      · have hkv : (kv.1 == k) = false := by
          simp only [beq_eq_false_iff_ne, ne_eq]
          rw [h1]
          exact fun hh => hk hh.symm
        simp [hk, lookupEntry, List.find?, hkv]
    · have hb : (kv.1 != k') = true := by simp [h1]
      have hstep : eraseEntry (kv :: rest) k' = kv :: eraseEntry rest k' := by
        simp [eraseEntry, List.filter, hb]
      rw [hstep]
      by_cases hkv : kv.1 == k
      · have hkk : ¬ k = k' := by
          intro hh
          exact h1 (by rw [← hh]; exact (beq_iff_eq.mp hkv))
      -- the head survives and matches the lookup on both sides
        simp [lookupEntry, List.find?, hkv, hkk]
      · have hkvb : (kv.1 == k) = false := by simpa using hkv
        simp only [lookupEntry, List.find?, hkvb]
        exact ih

/-- After a `Set` that could stat the file, the path maps to the freshly
inserted entry or (if the insertion itself was evicted) to nothing. -/
theorem lookupEntry_Set (tc : TemplateCache) (fs : FS) (now : Int) (path : String)
    (es : List PDFElement) (fi : FileInfo) (hfi : fs path = some fi) :
    lookupEntry (tc.Set fs now path es).entries path = none ∨
    lookupEntry (tc.Set fs now path es).entries path =
      some { elements := es, hash := calculateHash es, createdAt := now,
             accessedAt := now, fileModTime := fi.modTime } := by
  unfold TemplateCache.Set
  rw [hfi]
  simp only
  set newEntry : CacheEntry :=
    { elements := es, hash := calculateHash es, createdAt := now,
      accessedAt := now, fileModTime := fi.modTime } with hentry
  by_cases hover : (insertEntry tc.entries path newEntry).length > tc.maxSize
  · rw [if_pos hover]
    unfold TemplateCache.evictOldest
    simp only
    by_cases hkey : (scanOldest (insertEntry tc.entries path newEntry) ("", 0)).1 ≠ ""
    · rw [if_pos hkey]
      simp only
      rw [lookupEntry_eraseEntry]
      by_cases hpk : path = (scanOldest (insertEntry tc.entries path newEntry) ("", 0)).1
      · rw [if_pos hpk]
        exact Or.inl rfl
      · rw [if_neg hpk]
        exact Or.inr (lookupEntry_insertEntry _ _ _)
    · rw [if_neg hkey]
      exact Or.inr (lookupEntry_insertEntry _ _ _)
  · rw [if_neg hover]
    exact Or.inr (lookupEntry_insertEntry _ _ _)

theorem Get_none_lookup (tc : TemplateCache) (fs : FS) (now : Int) (path : String)
    (h : lookupEntry tc.entries path = none) : tc.Get fs now path = (tc, none) := by
  unfold TemplateCache.Get
  rw [h]

theorem parse_ok_stat (fs : FS) (path : String) (es : List PDFElement)
    (h : parseCSVFromFS fs path = .ok es) : ∃ fi, fs path = some fi := by
  unfold parseCSVFromFS at h
  cases hf : fs path with
  | none =>
    rw [hf] at h
    exact Except.noConfusion h
  | some fi => exact ⟨fi, rfl⟩

/-- C1: (i) `Get` hits exactly when an entry exists, the file stats, the
on-disk modification time has not advanced past the recorded one, and the age
is within the TTL — in every other case it misses; (ii) hence two fetches with
the file unchanged in between return the same result (and, when both succeed,
element lists with identical content hash); and (iii) once the recorded
modification time is older than the on-disk one, the next fetch re-parses and
returns exactly the parse of the new content. -/
theorem templateCache_fetch_correctness :
    (∀ (tc : TemplateCache) (fs : FS) (now : Int) (path : String) (es : List PDFElement),
      (tc.Get fs now path).2 = some es ↔
        ∃ entry, lookupEntry tc.entries path = some entry ∧ entry.elements = es ∧
          ∃ fi, fs path = some fi ∧ fi.modTime ≤ entry.fileModTime ∧
            now - entry.createdAt ≤ tc.ttl) ∧
    (∀ (tc : TemplateCache) (fs : FS) (path : String) (now1 now2 : Int),
      lookupEntry tc.entries path = none →
      (fetchCSV (fetchCSV tc fs now1 path).1 fs now2 path).2 =
        (fetchCSV tc fs now1 path).2 ∧
      (∀ es1 es2, (fetchCSV tc fs now1 path).2 = .ok es1 →
        (fetchCSV (fetchCSV tc fs now1 path).1 fs now2 path).2 = .ok es2 →
        calculateHash es1 = calculateHash es2)) ∧
    (∀ (tc : TemplateCache) (fs : FS) (now : Int) (path : String)
      (entry : CacheEntry) (fi : FileInfo),
      lookupEntry tc.entries path = some entry → fs path = some fi →
      entry.fileModTime < fi.modTime →
      (fetchCSV tc fs now path).2 = wrapParseResult (parseCSVFile fi.records)) := by
  have hGetNone : ∀ (tc : TemplateCache) (fs : FS) (now : Int) (path : String),
      lookupEntry tc.entries path = none → tc.Get fs now path = (tc, none) :=
    Get_none_lookup
  have hGetStatFail : ∀ (tc : TemplateCache) (fs : FS) (now : Int) (path : String)
      (entry : CacheEntry), lookupEntry tc.entries path = some entry → fs path = none →
      tc.Get fs now path = ({ tc with entries := eraseEntry tc.entries path }, none) := by
    intro tc fs now path entry hl hf
    unfold TemplateCache.Get
    rw [hl, hf]
  have hGetSome : ∀ (tc : TemplateCache) (fs : FS) (now : Int) (path : String)
      (entry : CacheEntry) (fi : FileInfo),
      lookupEntry tc.entries path = some entry → fs path = some fi →
      tc.Get fs now path =
        if fi.modTime > entry.fileModTime then
          ({ tc with entries := eraseEntry tc.entries path }, none)
        else if now - entry.createdAt > tc.ttl then
          ({ tc with entries := eraseEntry tc.entries path }, none)
        else ({ tc with entries := touchEntry tc.entries path now }, some entry.elements) := by
    intro tc fs now path entry fi hl hf
    unfold TemplateCache.Get
    rw [hl, hf]
  refine ⟨?_, ?_, ?_⟩
  · -- (i) the hit iff
    intro tc fs now path es
    rcases hl : lookupEntry tc.entries path with _ | entry
    · rw [hGetNone tc fs now path hl]
      simp
    · rcases hf : fs path with _ | fi
      · rw [hGetStatFail tc fs now path entry hl hf]
        simp
      · rw [hGetSome tc fs now path entry fi hl hf]
        split_ifs with h1 h2
        · constructor
          · intro h
            exact absurd h (by simp)
          · rintro ⟨e', he', hes, fi', hfi', hle', httl'⟩
            obtain rfl : entry = e' := by simpa using he'
            obtain rfl : fi = fi' := by simpa using hfi'
            omega
        · constructor
          · intro h
            exact absurd h (by simp)
          · rintro ⟨e', he', hes, fi', hfi', hle', httl'⟩
            obtain rfl : entry = e' := by simpa using he'
            omega
        · constructor
          · intro h
            have hes : entry.elements = es := by simpa using h
            exact ⟨entry, rfl, hes, fi, rfl, not_lt.mp h1, by omega⟩
          · rintro ⟨e', he', hes, fi', hfi', hle', httl'⟩
            obtain rfl : entry = e' := by simpa using he'
            simpa using hes
  · -- (ii) unchanged source: same result twice
    intro tc fs path now1 now2 hlook
    have hget1 : tc.Get fs now1 path = (tc, none) := hGetNone tc fs now1 path hlook
    have hmain : (fetchCSV (fetchCSV tc fs now1 path).1 fs now2 path).2 =
        (fetchCSV tc fs now1 path).2 := by
      rcases hp : parseCSVFromFS fs path with m | es
      · have h1 : fetchCSV tc fs now1 path =
            (tc, .error ("failed to parse CSV file: " ++ m)) := by
          unfold fetchCSV
          rw [hget1, hp]
        rw [h1]
        have hget2 : tc.Get fs now2 path = (tc, none) := hGetNone tc fs now2 path hlook
        unfold fetchCSV
        rw [hget2, hp]
      · have h1 : fetchCSV tc fs now1 path = (tc.Set fs now1 path es, .ok es) := by
          unfold fetchCSV
          rw [hget1, hp]
        rw [h1]
        obtain ⟨fi, hfi⟩ := parse_ok_stat fs path es hp
        rcases lookupEntry_Set tc fs now1 path es fi hfi with hnone | hsome
        · have hget2 : (tc.Set fs now1 path es).Get fs now2 path =
              (tc.Set fs now1 path es, none) := hGetNone _ _ _ _ hnone
          unfold fetchCSV
          rw [hget2, hp]
        · have hget2 := hGetSome (tc.Set fs now1 path es) fs now2 path _ fi hsome hfi
          unfold fetchCSV
          rw [hget2]
          split_ifs with h1 h2
          · exact absurd h1 (by simp)
          · rw [hp]
          · rfl
    refine ⟨hmain, fun es1 es2 h1 h2 => ?_⟩
    rw [h1] at hmain
    rw [hmain] at h2
    obtain rfl : es1 = es2 := by simpa using h2
    rfl
  · -- (iii) modification-time advance forces a re-parse of the new content
    intro tc fs now path entry fi hlook hfi hmod
    have hget := hGetSome tc fs now path entry fi hlook hfi
    rw [if_pos hmod] at hget
    have hp : parseCSVFromFS fs path = parseCSVFile fi.records := by
      unfold parseCSVFromFS
      rw [hfi]
    unfold fetchCSV
    rw [hget]
    rcases hres : parseCSVFile fi.records with m | es
    · rw [hp, hres]
      simp [wrapParseResult]
    · rw [hp, hres]
      simp [wrapParseResult]

def fsW1 : FS :=
  fun p => if p = "t.csv" then some { modTime := 5, records := [headersW7, rowGoodW7] }
           else none

def tc0W : TemplateCache := emptyCache 10 100

def entryEW : CacheEntry :=
  { elements := [], hash := "", createdAt := 0, accessedAt := 0, fileModTime := 3 }

def tcEW : TemplateCache :=
  { entries := [("t.csv", entryEW)], maxSize := 10, ttl := 100 }

/-- C1 witnessed: two fetches of an unchanged file agree, and a fetch after
the modification time advanced past the recorded `3` returns the parse of the
current content. -/
theorem templateCache_fetch_correctness_witness :
    (fetchCSV (fetchCSV tc0W fsW1 1 "t.csv").1 fsW1 2 "t.csv").2 =
      (fetchCSV tc0W fsW1 1 "t.csv").2 ∧
    (fetchCSV tcEW fsW1 3 "t.csv").2 =
      wrapParseResult (parseCSVFile [headersW7, rowGoodW7]) :=
  ⟨(templateCache_fetch_correctness.2.1 tc0W fsW1 "t.csv" 1 2 rfl).1,
   templateCache_fetch_correctness.2.2 tcEW fsW1 3 "t.csv" entryEW
     { modTime := 5, records := [headersW7, rowGoodW7] } rfl rfl (by norm_num [entryEW])⟩

end PdfGen
